import Mathlib

/-!
# Verification of the label-classification engine

This file gives a shallow embedding, in Lean 4, of the core of the
image-label-detector service: the approximate (fuzzy) string matcher, the
text-density analyzer, the signal detectors, the weighted scoring engine and
the batch coordinator, together with theorems settling the specification
claims about them.

Modelling conventions:
* JavaScript `number` values are modelled as `ℚ` (the code only performs
  field arithmetic, `Math.min`, `Math.max`, `Math.floor` and `Math.ceil`
  on them; decimal literals such as `0.4` are modelled as the exact
  rationals they denote).
* JavaScript strings are modelled as `String` / `List Char`; `toLowerCase`
  is modelled character-wise covering the ASCII and Latin-1 letters that
  occur in the service's Spanish/English vocabularies.
* The regular expressions used by the detectors are embedded as dedicated
  scanner functions whose semantics follow the JavaScript regex engine on
  the specific patterns involved (all of which are deterministic up to the
  unit alternation, which is scanned in source order).
* `Promise.allSettled` failure isolation is modelled by giving the batch
  coordinator the per-image pipeline as a function into `Except`.
-/

/-- JavaScript whitespace (the characters matched by the regex class
used by the service: space, tab, line feed, vertical tab,
form feed, carriage return and no-break space). -/
def isWsChar (c : Char) : Bool :=
  c = ' ' || c = '\t' || c = '\n' || c = '\r' ||
    c = '\x0b' || c = '\x0c' || c = ' '

/-- Character-wise model of JavaScript `toLowerCase`, covering ASCII
`A`–`Z` and the Latin-1 uppercase letters `À`–`Þ` (except `×`), which
include every uppercase character of the service's vocabularies. -/
def jsLowerChar (c : Char) : Char :=
  if 'A' ≤ c ∧ c ≤ 'Z' then Char.ofNat (c.toNat + 32)
  else if ('À' ≤ c ∧ c ≤ 'Þ') ∧ c ≠ '×' then Char.ofNat (c.toNat + 32)
  else c

/-- `toLowerCase` on a character list. -/
def jsToLower (s : List Char) : List Char := s.map jsLowerChar

/-- JavaScript `String.prototype.trim`: drop whitespace from both ends. -/
def jsTrim (s : List Char) : List Char :=
  ((s.dropWhile isWsChar).reverse.dropWhile isWsChar).reverse

/-- JavaScript `String.prototype.includes`: substring containment. -/
def jsIncludes : List Char → List Char → Bool
  | [], needle => needle.isEmpty
  | h :: t, needle => needle.isPrefixOf (h :: t) || jsIncludes t needle

/-- JavaScript `split` on a whitespace-run regex: the string is cut at every
maximal run of whitespace characters; a leading (resp. trailing) run
produces a leading (resp. trailing) empty field, exactly as in JS. -/
def splitWs : List Char → List (List Char)
  | [] => [[]]
  | c :: cs =>
    if isWsChar c then
      match cs with
      | [] => [[], []]
      | d :: ds => if isWsChar d then splitWs (d :: ds) else [] :: splitWs (d :: ds)
    else
      match splitWs cs with
      | [] => [[c]]
      | t :: ts => (c :: t) :: ts

/-- JavaScript `split` on the one-character separator `"\n"`. -/
def splitNl : List Char → List (List Char)
  | [] => [[]]
  | c :: cs =>
    if c = '\n' then [] :: splitNl cs
    else
      match splitNl cs with
      | [] => [[c]]
      | l :: ls => (c :: l) :: ls

/-- Maximal runs of decimal digits of a string, in order (the matches of a
global digit-run regex). -/
def digitRuns : List Char → List (List Char)
  | [] => []
  | c :: cs =>
    if c.isDigit then
      match cs with
      | [] => [[c]]
      | d :: _ =>
        if d.isDigit then
          match digitRuns cs with
          | [] => [[c]]
          | t :: ts => (c :: t) :: ts
        else [c] :: digitRuns cs
    else digitRuns cs

/-- The classic single-character insert/delete/substitute Levenshtein
distance, as defined recursively in textbooks: equal heads cost nothing,
otherwise one plus the best of substitution, deletion and insertion. -/
def levRec (xs ys : List Char) : Nat :=
  match xs, ys with
  | [], ys => ys.length
  | x :: xt, [] => (x :: xt).length
  | x :: xt, y :: yt =>
    if x = y then levRec xt yt
    else min (levRec xt yt + 1) (min (levRec (x :: xt) yt + 1) (levRec xt (y :: yt) + 1))
termination_by xs.length + ys.length
decreasing_by all_goals simp_arith

/-- One inner loop of the service's dynamic-programming matrix
(`levenshteinDistance`): given the previous row (from its diagonal
position onwards) and the value to the left, produce the rest of the
current row.  The `headD 0` defaults mirror the `?? 0` fallbacks of the
source. -/
def levGo (c : Char) : List Char → List Nat → Nat → List Nat
  | [], _, _ => []
  | a :: as, prev, left =>
    let diagCost := prev.headD 0
    let rest := prev.tail
    let topCost := rest.headD 0
    let cur := if a = c then diagCost else min (diagCost + 1) (min (left + 1) (topCost + 1))
    cur :: levGo c as rest cur

/-- The outer loop of the matrix fill: each character of `str2` produces one
further row, whose first cell is the row index. -/
def levLoop (s1 : List Char) : List Char → List Nat → Nat → List Nat
  | [], prev, _ => prev
  | c :: cs, prev, i => levLoop s1 cs ((i + 1) :: levGo c s1 prev (i + 1)) (i + 1)

/-- The service's `levenshteinDistance(str1, str2)`: fill the
`(len2+1) × (len1+1)` matrix row by row (row 0 is `0,1,…,len1`) and read
the cell `matrix[len2][len1]`. -/
def levenshteinDistance (str1 str2 : List Char) : Nat :=
  (levLoop str1 str2 (List.range (str1.length + 1)) 0).getD str1.length 0

/-- The service's `similarity(s1, s2)`: one minus the normalized edit
distance of the lower-cased strings, where the normalizer is the length of
the longer string; `1` when both strings are empty. -/
def similarity (s1 s2 : String) : ℚ :=
  let longer := if s1.length > s2.length then s1 else s2
  let shorter := if s1.length > s2.length then s2 else s1
  if longer.length = 0 then 1
  else ((longer.length : ℚ) -
      (levenshteinDistance (jsToLower longer.data) (jsToLower shorter.data) : ℚ)) /
    (longer.length : ℚ)

/-- The service's `fuzzySearch(text, keyword, threshold)`: exact
case-insensitive substring match, else a whitespace token of length at
least `len(keyword) - 2` with similarity at least the threshold, else a
partial multi-word match (keyword parts of length above 3 appearing
verbatim, at least sixty percent of all parts). -/
def fuzzySearch (text keyword : String) (threshold : ℚ) : Bool :=
  let textLower := jsToLower text.data
  let keywordLower := jsToLower keyword.data
  if jsIncludes textLower keywordLower then true
  else
    let words := splitWs textLower
    if words.any (fun word =>
        decide ((word.length : ℤ) ≥ (keywordLower.length : ℤ) - 2) &&
        decide (similarity ⟨word⟩ ⟨keywordLower⟩ ≥ threshold)) then true
    else
      let keywordParts := splitWs keywordLower
      let matchedParts := keywordParts.filter
        (fun part => decide (part.length > 3) && jsIncludes textLower part)
      decide ((matchedParts.length : ℤ) ≥ ⌈(keywordParts.length : ℚ) * (6/10)⌉)

/-- A recognized word of the OCR result: text, engine confidence and a
pixel-space bounding box `(x0, y0, x1, y1)`. -/
structure Bbox where
  x0 : ℚ
  y0 : ℚ
  x1 : ℚ
  y1 : ℚ
deriving DecidableEq

/-- An OCR word with its confidence and bounding box. -/
structure OCRWord where
  text : String
  confidence : ℚ
  bbox : Bbox
deriving DecidableEq

/-- The OCR engine's output for one image: the full recognized string, the
engine-level confidence and the ordered list of structured words (possibly
empty even when `text` is not). -/
structure OCRResult where
  text : String
  confidence : ℚ
  words : List OCRWord
deriving DecidableEq

/-- The density metrics derived from one OCR result. -/
structure TextDensityAnalysis where
  totalTextArea : ℚ
  imageArea : ℚ
  textCoveragePercentage : ℚ
  textBlockCount : ℕ
  averageWordConfidence : ℚ
  wordsDetected : ℕ
deriving DecidableEq

/-- The barcode/QR signal derived from text patterns alone. -/
structure BarcodeQRAnalysis where
  hasBarcode : Bool
  hasQRCode : Bool
  confidence : ℚ
deriving DecidableEq

/-- The metrics block of a final decision record. -/
structure DetectionMetrics where
  textCoverage : ℚ
  textBlockCount : ℕ
  wordCount : ℕ
  hasBarcode : Bool
  hasQRCode : Bool
  averageTextConfidence : ℚ
deriving DecidableEq

/-- The final decision record returned for one image. -/
structure LabelDetectionResult where
  isProductLabel : Bool
  confidence : ℚ
  reasoning : String
  metrics : DetectionMetrics
  processingTimeMs : ℚ
deriving DecidableEq

/-- The triple computed by the scoring engine. -/
structure ScoreOutcome where
  isLabel : Bool
  confidence : ℚ
  reasoning : String
deriving DecidableEq

/-- A product image reference.  Only the external identifier `_id` is
relevant to the batch coordinator; the remaining fields (URLs, pixel
dimensions, hashes) feed the external download/OCR collaborators, which
are modelled abstractly. -/
structure ProductImage where
  _id : String
deriving DecidableEq

/-- The service's `countTextBlocks`: bucket each point into a cell of a
grid obtained by dividing the given width and height by five, key the cell
by the string `"cellX,cellY"` of the floored quotients, and count distinct
keys (an unbounded integer grid: the indices are not clamped to `0…4`). -/
def countTextBlocks (points : List (ℚ × ℚ)) (imageWidth imageHeight : ℚ) : ℕ :=
  if points.length = 0 then 0
  else
    let gridSize : ℚ := 5
    let cellWidth := imageWidth / gridSize
    let cellHeight := imageHeight / gridSize
    let occupiedCells := (points.map (fun point =>
      toString (⌊point.1 / cellWidth⌋ : ℤ) ++ "," ++ toString (⌊point.2 / cellHeight⌋ : ℤ))).dedup
    occupiedCells.length

/-- The word-based branch of the density analyzer: sum the bounding-box
areas, bucket the box centers through `countTextBlocks` over a fixed
`1000 × 1000` reference space, and average the per-word confidences.  The
coverage percentage is not capped. -/
def analyzeFromWords (ocr : OCRResult) (imageArea : ℚ) : TextDensityAnalysis :=
  let totalTextArea := (ocr.words.map
    (fun word => (word.bbox.x1 - word.bbox.x0) * (word.bbox.y1 - word.bbox.y0))).sum
  let textBlocks := ocr.words.map
    (fun word => ((word.bbox.x0 + word.bbox.x1) / 2, (word.bbox.y0 + word.bbox.y1) / 2))
  let blockCount := countTextBlocks textBlocks 1000 1000
  let textCoveragePercentage := totalTextArea / imageArea * 100
  let averageWordConfidence :=
    if ocr.words.length > 0 then
      (ocr.words.map (fun word => word.confidence)).sum / (ocr.words.length : ℚ)
    else 0
  { totalTextArea := totalTextArea
    imageArea := imageArea
    textCoveragePercentage := textCoveragePercentage
    textBlockCount := blockCount
    averageWordConfidence := averageWordConfidence
    wordsDetected := ocr.words.length }

/-- The plain-text fallback branch of the density analyzer: estimate the
text area as `10 × 15` pixels per character of the trimmed text, cap the
coverage percentage at `100`, count words as the non-empty whitespace
tokens and blocks as `max(floor(nonEmptyLines / 2), 1)`. -/
def analyzeFromPlainText (ocr : OCRResult) (imageArea : ℚ) : TextDensityAnalysis :=
  let text := jsTrim ocr.text.data
  let words := (splitWs text).filter (fun w => w.length > 0)
  let wordsDetected := words.length
  let avgCharWidth : ℚ := 10
  let avgCharHeight : ℚ := 15
  let estimatedTextArea := (text.length : ℚ) * avgCharWidth * avgCharHeight
  let textCoveragePercentage := min (estimatedTextArea / imageArea * 100) 100
  let lines := (splitNl text).filter (fun line => (jsTrim line).length > 0)
  let textBlockCount := max (lines.length / 2) 1
  { totalTextArea := estimatedTextArea
    imageArea := imageArea
    textCoveragePercentage := textCoveragePercentage
    textBlockCount := textBlockCount
    averageWordConfidence := ocr.confidence
    wordsDetected := wordsDetected }

/-- The service's `analyzeTextDensity`: word-based branch when structured
words exist, plain-text fallback when only raw text exists, all-zero
record otherwise. -/
def analyzeTextDensity (ocr : OCRResult) (imageWidth imageHeight : ℚ) : TextDensityAnalysis :=
  let imageArea := imageWidth * imageHeight
  if ocr.words.length > 0 then analyzeFromWords ocr imageArea
  else if (jsTrim ocr.text.data).length > 0 then analyzeFromPlainText ocr imageArea
  else
    { totalTextArea := 0
      imageArea := imageArea
      textCoveragePercentage := 0
      textBlockCount := 0
      averageWordConfidence := 0
      wordsDetected := 0 }

/-- The service's barcode/QR detector: keyword fuzzy matches at threshold
`0.7` plus a digit run of length at least eight. -/
def detectBarcodeQR (ocr : OCRResult) : BarcodeQRAnalysis :=
  let text := ocr.text
  let qrPatterns := ["qr", "scan", "escanea", "código", "codigo"]
  let barcodePatterns := ["barras", "ean", "upc", "código", "codigo"]
  let hasQRKeywords := qrPatterns.any (fun p => fuzzySearch text p (7/10))
  let hasBarcodeKeywords := barcodePatterns.any (fun p => fuzzySearch text p (7/10))
  let longNumberSequences := (digitRuns text.data).filter (fun r => r.length ≥ 8)
  { hasQRCode := hasQRKeywords
    hasBarcode := hasBarcodeKeywords || decide (longNumberSequences.length > 0)
    confidence :=
      if hasQRKeywords || hasBarcodeKeywords then 8/10
      else if longNumberSequences.length > 0 then 6/10
      else 3/10 }

/-- A JavaScript word character (the regex class of letters, digits and
underscore), used for word-boundary checks. -/
def isWordChar (c : Char) : Bool :=
  ('a' ≤ c && c ≤ 'z') || ('A' ≤ c && c ≤ 'Z') || c.isDigit || c = '_'

/-- Case-insensitive literal prefix test (`u` is given lower-case). -/
def prefixCI (s u : List Char) : Bool := jsToLower (s.take u.length) = u

/-- A word boundary holds after a unit if the next character is not a word
character (or the string ends). -/
def unitBoundary : List Char → Bool
  | [] => true
  | c :: _ => !(isWordChar c)

/-- Match, at the head of `s`, the nutritional-unit pattern
`digits [.,]? digits* ws* (g|mg|kcal|cal|gr) word-boundary`
(case-insensitive), returning the number of characters consumed. -/
def unitMatchAt (s : List Char) : Option ℕ :=
  let d1 := s.takeWhile Char.isDigit
  if d1.isEmpty then none
  else
    let r1 := s.drop d1.length
    let sep : ℕ := match r1 with
      | c :: _ => if c = '.' ∨ c = ',' then 1 else 0
      | [] => 0
    let r2 := r1.drop sep
    let d2 := r2.takeWhile Char.isDigit
    let r3 := r2.drop d2.length
    let w := r3.takeWhile isWsChar
    let r4 := r3.drop w.length
    let units := [['g'], ['m', 'g'], ['k', 'c', 'a', 'l'], ['c', 'a', 'l'], ['g', 'r']]
    match units.find? (fun u => prefixCI r4 u && unitBoundary (r4.drop u.length)) with
    | some u => some (d1.length + sep + d2.length + w.length + u.length)
    | none => none

/-- Count the global (non-overlapping, left-to-right) matches of the
nutritional-unit pattern in a string. -/
def scanUnits : List Char → ℕ
  | [] => 0
  | c :: cs =>
    match unitMatchAt (c :: cs) with
    | some n => 1 + scanUnits (cs.drop (n - 1))
    | none => scanUnits cs
termination_by s => s.length
decreasing_by
  · simp only [List.length_drop, List.length_cons]; omega
  · simp_arith

/-- Test for a pipe character followed by optional whitespace and a digit
(the "table signature" regex). -/
def pipeDigitTest : List Char → Bool
  | [] => false
  | c :: cs =>
    (c = '|' && (match cs.dropWhile isWsChar with
      | d :: _ => d.isDigit
      | [] => false)) || pipeDigitTest cs

/-- Match, at the head of `s`, the portion pattern
`por ws+ (cada|100|cad)` (case-insensitive). -/
def portionAt (s : List Char) : Bool :=
  prefixCI s ['p', 'o', 'r'] &&
    (match s.drop 3 with
     | c :: cs =>
       isWsChar c &&
         (let r2 := (c :: cs).dropWhile isWsChar
          prefixCI r2 ['c', 'a', 'd', 'a'] || prefixCI r2 ['1', '0', '0'] ||
            prefixCI r2 ['c', 'a', 'd'])
     | [] => false)

/-- Test for the portion pattern anywhere in the string. -/
def portionTest : List Char → Bool
  | [] => false
  | c :: cs => portionAt (c :: cs) || portionTest cs

/-- Case-insensitive substring test against a lower-case literal. -/
def containsCI (s w : List Char) : Bool := jsIncludes (jsToLower s) w

/-- After an occurrence of `informa`, look for `nutri` (case-insensitive)
without crossing a line terminator (the `.` of the regex does not match
newlines). -/
def nutriAfter : List Char → Bool
  | [] => false
  | c :: cs =>
    if prefixCI (c :: cs) ['n', 'u', 't', 'r', 'i'] then true
    else if c = '\n' ∨ c = '\r' ∨ c = ' ' ∨ c = ' ' then false
    else nutriAfter cs

/-- Test for `informa` followed (on the same line) by `nutri`,
case-insensitively, anywhere in the string. -/
def informaNutriTest : List Char → Bool
  | [] => false
  | c :: cs =>
    (prefixCI (c :: cs) ['i', 'n', 'f', 'o', 'r', 'm', 'a'] &&
      nutriAfter (cs.drop 6)) || informaNutriTest cs

/-- The service's nutrition-info detector: keyword fuzzy matches, a table
signature, repeated unit patterns, short nutritional tokens, portion
phrases with units, or repeated partial stems. -/
def hasNutritionalInfo (ocr : OCRResult) : Bool :=
  let text := ocr.text
  let textLower := jsToLower text.data
  let nutritionalKeywords :=
    ["informacion nutricional", "información nutricional", "nutricional",
     "calorias", "calorías", "proteina", "proteína", "grasa",
     "carbohidrato", "kcal", "nutricion"]
  let matchedKeywords := nutritionalKeywords.filter (fun k => fuzzySearch text k (7/10))
  let hasTablePattern := pipeDigitTest text.data
  let hasMultiplePipes := decide ((text.data.filter (fun c => c = '|')).length ≥ 3)
  let unitCount := scanUnits text.data
  let shortNutritionalWords :=
    [['c', 'a', 'l'], ['k', 'c', 'a', 'l'], ['g', 'r', 'a', 's', 'a'],
     ['p', 'r', 'o', 't'], ['c', 'a', 'r', 'b'], ['f', 'i', 'b', 'r']]
  let shortMatches := (shortNutritionalWords.filter (fun w => jsIncludes textLower w)).length
  let hasPortionInfo := portionTest text.data
  let stemMatchCount := ([containsCI text.data ['n', 'u', 't', 'r', 'i'],
    containsCI text.data ['c', 'a', 'l', 'o', 'r'],
    containsCI text.data ['p', 'r', 'o', 't', 'e'],
    containsCI text.data ['c', 'a', 'r', 'b', 'o'],
    informaNutriTest text.data].filter (fun b => b)).length
  decide (matchedKeywords.length ≥ 1) ||
    (hasTablePattern && hasMultiplePipes) ||
    decide (unitCount ≥ 3) ||
    decide (shortMatches ≥ 2) ||
    (hasPortionInfo && decide (unitCount ≥ 2)) ||
    decide (stemMatchCount ≥ 2)

/-- The service's ingredients detector: at least two vocabulary words
fuzzy-match at threshold `0.75`. -/
def hasIngredients (ocr : OCRResult) : Bool :=
  let ingredientKeywords :=
    ["ingrediente", "ingredientes", "contiene", "leche", "azucar", "azúcar",
     "agua", "natural", "cultivo", "probiotico", "probiótico"]
  decide ((ingredientKeywords.filter (fun k => fuzzySearch ocr.text k (3/4))).length ≥ 2)

/-- The service's storage-info detector: any vocabulary word fuzzy-matches
at threshold `0.75`. -/
def hasStorageInfo (ocr : OCRResult) : Bool :=
  let storageKeywords :=
    ["temperatura", "almacena", "refrigera", "conserva", "grados", "°c", "almacenaje"]
  storageKeywords.any (fun k => fuzzySearch ocr.text k (3/4))

/-- The service's manufacturer-info detector: any vocabulary word
fuzzy-matches at threshold `0.75`. -/
def hasManufacturerInfo (ocr : OCRResult) : Bool :=
  let manufacturerKeywords :=
    ["producto", "fabricado", "elaborado", "distribuido", "comercializado",
     "industria", "empresa", "hecho en"]
  manufacturerKeywords.any (fun k => fuzzySearch ocr.text k (3/4))

/-- Format a rational with two decimal places (the model of `toFixed(2)`,
rounding half away from zero), used only inside reasoning strings. -/
def toFixed2 (q : ℚ) : String :=
  let sign := if q < 0 then "-" else ""
  let n : ℤ := ⌊|q| * 100 + 1/2⌋
  let whole := n / 100
  let frac := n % 100
  sign ++ toString whole ++ "." ++ (if frac < 10 then "0" else "") ++ toString frac

/-- Criterion 0 of the scoring engine (raw text volume): `+15` above 100
trimmed characters, `+8` above 50. -/
def crit0 (textLength : ℕ) : ℚ × Option String :=
  if textLength > 100 then
    (15, some ("Cantidad significativa de texto detectado: " ++ toString textLength ++ " caracteres"))
  else if textLength > 50 then
    (8, some ("Texto detectado: " ++ toString textLength ++ " caracteres"))
  else (0, none)

/-- Criterion 1 (text coverage): when the coverage ratio exceeds `0.1`,
award `min(20, ratio / 0.4 * 20)` points. -/
def crit1 (textCoveragePercentage : ℚ) : ℚ × Option String :=
  let textCoverageRatio := textCoveragePercentage / 100
  if textCoverageRatio > 1/10 then
    (min 20 (textCoverageRatio / (4/10) * 20),
      some ("Cobertura de texto: " ++ toFixed2 textCoveragePercentage ++ "%"))
  else (0, none)

/-- Criterion 2 (text blocks): `+15` for five or more, `+10` for three or
four, `+5` for two. -/
def crit2 (textBlockCount : ℕ) : ℚ × Option String :=
  if textBlockCount ≥ 5 then
    (15, some ("Múltiples bloques de texto: " ++ toString textBlockCount))
  else if textBlockCount ≥ 3 then
    (10, some ("Varios bloques de texto: " ++ toString textBlockCount))
  else if textBlockCount ≥ 2 then
    (5, some ("Algunos bloques de texto: " ++ toString textBlockCount))
  else (0, none)

/-- Criterion 3 (word count): `+15` for thirty or more words, `+12` for
twenty, `+8` for ten, `+4` for five. -/
def crit3 (wordsDetected : ℕ) : ℚ × Option String :=
  if wordsDetected ≥ 30 then
    (15, some ("Alto número de palabras: " ++ toString wordsDetected))
  else if wordsDetected ≥ 20 then
    (12, some ("Número moderado-alto de palabras: " ++ toString wordsDetected))
  else if wordsDetected ≥ 10 then
    (8, some ("Número moderado de palabras: " ++ toString wordsDetected))
  else if wordsDetected ≥ 5 then
    (4, some ("Algunas palabras detectadas: " ++ toString wordsDetected))
  else (0, none)

/-- Criterion 4 (nutritional information): `+20` when present. -/
def crit4 (hasNutri : Bool) : ℚ × Option String :=
  if hasNutri then (20, some "✓ Contiene información nutricional (indicador muy fuerte)")
  else (0, none)

/-- Criterion 5 (ingredients): `+10` when present. -/
def crit5 (ingredients : Bool) : ℚ × Option String :=
  if ingredients then (10, some "✓ Contiene lista de ingredientes") else (0, none)

/-- Criterion 6 (storage information): `+5` when present. -/
def crit6 (storage : Bool) : ℚ × Option String :=
  if storage then (5, some "✓ Contiene información de temperatura/almacenamiento")
  else (0, none)

/-- Criterion 7 (manufacturer information): `+5` when present. -/
def crit7 (manufacturer : Bool) : ℚ × Option String :=
  if manufacturer then (5, some "✓ Contiene información del fabricante/distribuidor")
  else (0, none)

/-- Criterion 8 (QR or barcode): `+5` when either is present, with a
reason naming the codes found. -/
def crit8 (bq : BarcodeQRAnalysis) : ℚ × Option String :=
  if bq.hasQRCode || bq.hasBarcode then
    let codes := (if bq.hasQRCode then ["QR"] else []) ++
      (if bq.hasBarcode then ["código de barras"] else [])
    (5, some ("✓ Contiene " ++ String.intercalate " y/o " codes))
  else (0, none)

/-- The nine criteria of `calculateLabelScore`, in source order, each as a
pair of awarded points and optional pushed reason. -/
def scoreCriteria (td : TextDensityAnalysis) (bq : BarcodeQRAnalysis)
    (hasNutri : Bool) (ocr : OCRResult) : List (ℚ × Option String) :=
  [crit0 (jsTrim ocr.text.data).length,
   crit1 td.textCoveragePercentage,
   crit2 td.textBlockCount,
   crit3 td.wordsDetected,
   crit4 hasNutri,
   crit5 (hasIngredients ocr),
   crit6 (hasStorageInfo ocr),
   crit7 (hasManufacturerInfo ocr),
   crit8 bq]

/-- One accumulation step of the scoring loop: add the points to the
running score and append the reason, if any, to the reason list. -/
def applyCrit (st : ℚ × List String) (c : ℚ × Option String) : ℚ × List String :=
  (st.1 + c.1, st.2 ++ c.2.toList)

/-- The accumulated `(score, reasons)` state of the scoring engine after
all nine criterion blocks have run. -/
def engineState (td : TextDensityAnalysis) (bq : BarcodeQRAnalysis)
    (hasNutri : Bool) (ocr : OCRResult) : ℚ × List String :=
  (scoreCriteria td bq hasNutri ocr).foldl applyCrit (0, [])

/-- The service's `calculateLabelScore`: run the nine criterion blocks,
then derive the confidence `min(score/100, 1)`, the decision
`score >= 45` and the joined reasoning string (with a fixed sentinel when
no criterion fired). -/
def calculateLabelScore (td : TextDensityAnalysis) (bq : BarcodeQRAnalysis)
    (hasNutri : Bool) (ocr : OCRResult) : ScoreOutcome :=
  let st := engineState td bq hasNutri ocr
  let score := st.1
  let reasons := st.2
  let confidence := min (score / 100) 1
  let isLabel := decide (score ≥ 45)
  let reasoning :=
    if reasons.isEmpty then "No se detectaron características de etiqueta"
    else String.intercalate "; " reasons
  { isLabel := isLabel, confidence := confidence, reasoning := reasoning }

/-- Specification-side restatement of the scoring table's total: the sum
of the points of exactly the criteria that fired, one summand per table
row, in table order. -/
def totalScore (td : TextDensityAnalysis) (bq : BarcodeQRAnalysis)
    (hasNutri : Bool) (ocr : OCRResult) : ℚ :=
  (crit0 (jsTrim ocr.text.data).length).1 + (crit1 td.textCoveragePercentage).1 +
    (crit2 td.textBlockCount).1 + (crit3 td.wordsDetected).1 + (crit4 hasNutri).1 +
    (crit5 (hasIngredients ocr)).1 + (crit6 (hasStorageInfo ocr)).1 +
    (crit7 (hasManufacturerInfo ocr)).1 + (crit8 bq).1

/-- Specification-side restatement of the reasoning trail: the
justifications of exactly the criteria that fired, in table order. -/
def firedReasons (td : TextDensityAnalysis) (bq : BarcodeQRAnalysis)
    (hasNutri : Bool) (ocr : OCRResult) : List String :=
  (crit0 (jsTrim ocr.text.data).length).2.toList ++ (crit1 td.textCoveragePercentage).2.toList ++
    (crit2 td.textBlockCount).2.toList ++ (crit3 td.wordsDetected).2.toList ++
    (crit4 hasNutri).2.toList ++ (crit5 (hasIngredients ocr)).2.toList ++
    (crit6 (hasStorageInfo ocr)).2.toList ++ (crit7 (hasManufacturerInfo ocr)).2.toList ++
    (crit8 bq).2.toList

/-- The service's `chunkArray`: cut a list into consecutive chunks of the
given size.  The source loops forever when the chunk size is zero; that
unreachable case (the configured worker-pool size is positive) is modelled
as the empty list of chunks. -/
def chunkArray (chunkSize : ℕ) (array : List α) : List (List α) :=
  match array with
  | [] => []
  | x :: xs =>
    if chunkSize = 0 then []
    else (x :: xs).take chunkSize :: chunkArray chunkSize ((x :: xs).drop chunkSize)
termination_by array.length
decreasing_by simp only [List.length_drop, List.length_cons]; omega

/-- JavaScript `Map.prototype.set`: replace the value at an existing key
(keeping its position) or append a fresh key at the end. -/
def jsMapSet (m : List (String × α)) (k : String) (v : α) : List (String × α) :=
  if m.any (fun p => p.1 = k) then m.map (fun p => if p.1 = k then (k, v) else p)
  else m ++ [(k, v)]

/-- JavaScript `Map.prototype.get`. -/
def jsMapGet (m : List (String × α)) (k : String) : Option α :=
  (m.find? (fun p => p.1 = k)).map (fun p => p.2)

/-- The zero-confidence fallback record stored for an image whose pipeline
rejected: not a label, confidence `0`, an `Error: …` reasoning and
all-zero metrics. -/
def errorFallbackResult (e : String) : LabelDetectionResult :=
  { isProductLabel := false
    confidence := 0
    reasoning := "Error: " ++ e
    metrics :=
      { textCoverage := 0
        textBlockCount := 0
        wordCount := 0
        hasBarcode := false
        hasQRCode := false
        averageTextConfidence := 0 }
    processingTimeMs := 0 }

/-- The service's `detectLabelsInBatch`, with the per-image pipeline
(`detectLabel`, an external I/O computation) abstracted as a function into
`Except`: images are cut into chunks of the worker-pool size, each settled
result is stored into the map keyed by the image's `_id`, and a rejected
image stores the zero-confidence fallback instead of aborting. -/
def detectLabelsInBatch (detectLabel : ProductImage → Except String LabelDetectionResult)
    (workerPoolSize : ℕ) (images : List ProductImage) :
    List (String × LabelDetectionResult) :=
  (chunkArray workerPoolSize images).foldl
    (fun results chunk =>
      chunk.foldl
        (fun results image =>
          match detectLabel image with
          | Except.ok value => jsMapSet results image._id value
          | Except.error e => jsMapSet results image._id (errorFallbackResult e))
        results)
    []

/-- The settled outcome of one image of a batch: the pipeline's result on
fulfillment, the zero-confidence fallback on rejection. -/
def batchOutcome (detectLabel : ProductImage → Except String LabelDetectionResult)
    (image : ProductImage) : LabelDetectionResult :=
  match detectLabel image with
  | Except.ok value => value
  | Except.error e => errorFallbackResult e

/-- A density-metrics fixture used as a concrete witness input. -/
def tdFixture (wd : ℕ) : TextDensityAnalysis :=
  { totalTextArea := 0
    imageArea := 0
    textCoveragePercentage := 0
    textBlockCount := 0
    averageWordConfidence := 0
    wordsDetected := wd }

/-- A barcode-analysis fixture used as a concrete witness input. -/
def bqFixture : BarcodeQRAnalysis :=
  { hasBarcode := false, hasQRCode := false, confidence := 0 }

/-- An empty OCR result used as a concrete witness input. -/
def ocrEmptyFixture : OCRResult :=
  { text := "", confidence := 0, words := [] }

/-- A successful decision record used as a concrete witness input. -/
def resultFixture : LabelDetectionResult :=
  { isProductLabel := true
    confidence := 1
    reasoning := "ok"
    metrics :=
      { textCoverage := 0
        textBlockCount := 0
        wordCount := 0
        hasBarcode := false
        hasQRCode := false
        averageTextConfidence := 0 }
    processingTimeMs := 0 }

/-- A per-image pipeline fixture: the image with id "b" rejects, every
other image fulfills. -/
def detectFixture : ProductImage → Except String LabelDetectionResult :=
  fun img => if img._id = "b" then Except.error "boom" else Except.ok resultFixture

/-- An OCR fixture with one structured word whose box dwarfs a small
image (used to exhibit uncapped coverage). -/
def ocrWideFixture : OCRResult :=
  { text := ""
    confidence := 0
    words := [{ text := "w", confidence := 0,
                bbox := { x0 := 0, y0 := 0, x1 := 100, y1 := 100 } }] }

/-- An OCR fixture with raw text only (plain-text fallback branch). -/
def ocrPlainFixture : OCRResult :=
  { text := "hola mundo", confidence := 42, words := [] }

/-- A degenerate word at pixel x-center `400 k` (used to exhibit
unbounded grid indices). -/
def manyCellsWord (k : ℕ) : OCRWord :=
  { text := "w"
    confidence := 0
    bbox := { x0 := 400 * k, y0 := 0, x1 := 400 * k, y1 := 0 } }

/-- An OCR fixture with 26 words whose centers occupy 26 distinct grid
cells of the unbounded 200-unit grid (x-centers 0, 400, 800, …). -/
def ocrManyCellsFixture : OCRResult :=
  { text := ""
    confidence := 0
    words := (List.range 26).map manyCellsWord }

/-- The list of matrix-row values `levRec X (rev prefix ++ acc)` used to
state the invariant of the dynamic-programming loop: for a fixed left
argument `X`, walk the remaining characters of `str1`, prepending each to
the accumulated reversed prefix. -/
def rowOf (X acc : List Char) : List Char → List Nat
  | [] => [levRec X acc]
  | a :: as => levRec X acc :: rowOf X (a :: acc) as

theorem foldl_applyCrit (l : List (ℚ × Option String)) (s : ℚ) (rs : List String) :
    l.foldl applyCrit (s, rs) = (s + (l.map Prod.fst).sum, rs ++ l.filterMap Prod.snd) := by
  induction l generalizing s rs with
  | nil => simp
  | cons c l ih =>
    rcases c with ⟨p, r⟩
    cases r <;> simp [applyCrit, ih, add_assoc]

theorem filterMap_snd_cons (c : ℚ × Option String) (l : List (ℚ × Option String)) :
    (c :: l).filterMap Prod.snd = c.2.toList ++ l.filterMap Prod.snd := by
  rcases c with ⟨p, o⟩
  cases o <;> simp

theorem engineState_fst (td : TextDensityAnalysis) (bq : BarcodeQRAnalysis)
    (hasNutri : Bool) (ocr : OCRResult) :
    (engineState td bq hasNutri ocr).1 = totalScore td bq hasNutri ocr := by
  simp only [engineState, scoreCriteria, foldl_applyCrit, List.map_cons, List.map_nil,
    List.sum_cons, List.sum_nil, totalScore]
  ring

theorem engineState_snd (td : TextDensityAnalysis) (bq : BarcodeQRAnalysis)
    (hasNutri : Bool) (ocr : OCRResult) :
    (engineState td bq hasNutri ocr).2 = firedReasons td bq hasNutri ocr := by
  simp only [engineState, scoreCriteria, foldl_applyCrit, filterMap_snd_cons,
    List.filterMap_nil, firedReasons, List.nil_append, List.append_nil, List.append_assoc]

/-- C1: the scoring engine returns confidence `min(totalScore/100, 1)`,
decides `isLabel` exactly when the total score reaches 45, and reports as
reasoning the semicolon-joined justifications of exactly the criteria that
fired, in table order, or the fixed sentinel when none fired. -/
theorem calculateLabelScore_spec (td : TextDensityAnalysis) (bq : BarcodeQRAnalysis)
    (hasNutri : Bool) (ocr : OCRResult) :
    (calculateLabelScore td bq hasNutri ocr).confidence =
        min (totalScore td bq hasNutri ocr / 100) 1 ∧
      ((calculateLabelScore td bq hasNutri ocr).isLabel = true ↔
        totalScore td bq hasNutri ocr ≥ 45) ∧
      (calculateLabelScore td bq hasNutri ocr).reasoning =
        (if firedReasons td bq hasNutri ocr = [] then
          "No se detectaron características de etiqueta"
        else String.intercalate "; " (firedReasons td bq hasNutri ocr)) := by
  refine ⟨?_, ?_, ?_⟩
  · simp [calculateLabelScore, engineState_fst]
  · simp [calculateLabelScore, engineState_fst]
  · by_cases h : firedReasons td bq hasNutri ocr = [] <;>
      simp [calculateLabelScore, engineState_snd, h]

/-- C6 counterexample: a trimmed OCR text of exactly 50 characters falls
into neither branch of the raw-text-volume criterion and receives 0
points, not the 8 points the claim asserts for the inclusive 50–100
range. -/
theorem crit0_at_fifty :
    (jsTrim (String.mk (List.replicate 50 'a')).data).length = 50 ∧
      (crit0 50).1 = 0 ∧ (crit0 50).1 ≠ 8 := by
  refine ⟨by decide, by decide, by decide⟩

/-- C6 (amended): the raw-text-volume criterion awards 15 points when the
text length exceeds 100, 8 points when it is strictly above 50 and at
most 100, and 0 otherwise — in particular a text of exactly 50 characters
receives 0 points. -/
theorem crit0_amended_spec (n : ℕ) :
    (crit0 n).1 = if n > 100 then 15 else if 50 < n ∧ n ≤ 100 then 8 else 0 := by
  unfold crit0
  split_ifs <;> first | rfl | omega

/-- C7: the text-coverage criterion contributes `min(20, ratio/0.4 * 20)`
points exactly when the coverage ratio `pct/100` exceeds `0.1` (and 0
otherwise); at ratio `0.4` (coverage 40 percent) it contributes exactly
20, and at ratio `0.8` it still contributes exactly 20, capped. -/
theorem crit1_coverage_points_spec :
    (∀ pct : ℚ, (crit1 pct).1 =
        if pct / 100 > 1/10 then min 20 (pct / 100 / (4/10) * 20) else 0) ∧
      (crit1 40).1 = 20 ∧ (crit1 80).1 = 20 := by
  have key : ∀ pct : ℚ, (crit1 pct).1 =
      if pct / 100 > 1/10 then min 20 (pct / 100 / (4/10) * 20) else 0 := by
    intro pct
    simp only [crit1]
    split_ifs <;> rfl
  refine ⟨key, ?_, ?_⟩
  · rw [key]; norm_num
  · rw [key]; norm_num

theorem levenshteinDistance_nil_arg (s : List Char) : levenshteinDistance s [] = s.length := by
  simp [levenshteinDistance, levLoop, List.getD, List.getElem?_range]

theorem similarity_nil_first (k : String) (hk : k.data ≠ []) : similarity ⟨[]⟩ k = 0 := by
  have hlen : ∀ s : String, s.length = s.data.length := fun _ => rfl
  have h0 : ¬((⟨[]⟩ : String).length > k.length) := by
    rw [hlen ⟨[]⟩]
    simp
  have hne : ¬(k.length = 0) := by
    rw [hlen k, List.length_eq_zero]
    exact hk
  simp only [similarity]
  rw [if_neg h0, if_neg h0, if_neg hne]
  rw [show jsToLower (⟨[]⟩ : String).data = ([] : List Char) from rfl,
    levenshteinDistance_nil_arg]
  rw [show (jsToLower k.data).length = k.length from by rw [hlen k, jsToLower, List.length_map]]
  rw [sub_self, zero_div]

theorem splitWs_ne_nil (s : List Char) : splitWs s ≠ [] := by
  induction s with
  | nil => simp [splitWs]
  | cons c cs ih =>
    by_cases hc : isWsChar c
    · cases cs with
      | nil => simp [splitWs, hc]
      | cons d ds =>
        by_cases hd : isWsChar d
        · simpa [splitWs, hc, hd] using ih
        · simp [splitWs, hc, hd]
    · cases h : splitWs cs with
      | nil => exact absurd h ih
      | cons t ts =>
        rw [splitWs.eq_def]
        simp [hc, h]

theorem fuzzySearch_empty_text (k : String) (θ : ℚ) (hk : k.data ≠ []) (hθ : 0 < θ) :
    fuzzySearch "" k θ = false := by
  have hkl : List.map jsLowerChar k.data ≠ [] := by
    simpa [List.map_eq_nil_iff] using hk
  have hsim : similarity ⟨([] : List Char)⟩ ⟨List.map jsLowerChar k.data⟩ = 0 :=
    similarity_nil_first _ hkl
  have h1 : jsIncludes ([] : List Char) (List.map jsLowerChar k.data) = false := by
    cases hJ : List.map jsLowerChar k.data with
    | nil => exact absurd hJ hkl
    | cons a l => simp [jsIncludes]
  have hdec : decide (((0:ℚ) ≥ θ)) = false := decide_eq_false (not_le.mpr hθ)
  have h2 : (splitWs ([] : List Char)).any (fun word =>
      decide ((word.length : ℤ) ≥ ((List.map jsLowerChar k.data).length : ℤ) - 2) &&
      decide (similarity ⟨word⟩ ⟨List.map jsLowerChar k.data⟩ ≥ θ)) = false := by
    simp only [splitWs, List.any_cons, List.any_nil, Bool.or_false, List.length_nil]
    rw [hsim, hdec, Bool.and_false]
  have h3 : (splitWs (List.map jsLowerChar k.data)).filter
      (fun part => decide (part.length > 3) && jsIncludes ([] : List Char) part) = [] := by
    rw [List.filter_eq_nil_iff]
    intro part _
    by_cases hp : part.length > 3
    · have hpe : part ≠ [] := by
        intro h0
        rw [h0] at hp
        simp at hp
      cases part with
      | nil => exact absurd rfl hpe
      | cons a l => simp [jsIncludes]
    · simp [hp]
  have h4 : ¬ (((0:ℕ) : ℤ) ≥ ⌈((splitWs (List.map jsLowerChar k.data)).length : ℚ) * (6/10)⌉) := by
    have hparts : 1 ≤ (splitWs (List.map jsLowerChar k.data)).length :=
      List.length_pos.mpr (splitWs_ne_nil _)
    have hq : (0:ℚ) < ((splitWs (List.map jsLowerChar k.data)).length : ℚ) * (6/10) := by
      have h5 : (1:ℚ) ≤ ((splitWs (List.map jsLowerChar k.data)).length : ℚ) := by
        exact_mod_cast hparts
      nlinarith
    rw [ge_iff_le, not_le]
    exact_mod_cast Int.ceil_pos.mpr hq
  simp only [fuzzySearch, jsToLower, show ("" : String).data = ([] : List Char) from rfl,
    List.map_nil]
  rw [h1]
  simp only [Bool.false_eq_true, if_false]
  rw [h2]
  simp only [Bool.false_eq_true, if_false]
  simp only [h3, List.length_nil]
  exact decide_eq_false h4

theorem fuzzySearch_empty_not (k : String) (θ : ℚ) (hk : k.data ≠ []) (hθ : 0 < θ) :
    ¬ (fuzzySearch "" k θ = true) := by
  rw [fuzzySearch_empty_text k θ hk hθ]
  simp

theorem hasIngredients_empty_text (ocr : OCRResult) (h : ocr.text = "") :
    hasIngredients ocr = false := by
  simp only [hasIngredients, h, decide_eq_false_iff_not, not_le]
  have hfil : (List.filter (fun k => fuzzySearch "" k (3/4))
      ["ingrediente", "ingredientes", "contiene", "leche", "azucar", "azúcar",
       "agua", "natural", "cultivo", "probiotico", "probiótico"]) = [] := by
    rw [List.filter_eq_nil_iff]
    intro a ha
    fin_cases ha <;> exact fuzzySearch_empty_not _ _ (by decide) (by norm_num)
  rw [hfil]
  simp

theorem hasStorageInfo_empty_text (ocr : OCRResult) (h : ocr.text = "") :
    hasStorageInfo ocr = false := by
  simp only [hasStorageInfo, h, List.any_eq_false]
  intro a ha
  fin_cases ha <;> exact fuzzySearch_empty_not _ _ (by decide) (by norm_num)

theorem hasManufacturerInfo_empty_text (ocr : OCRResult) (h : ocr.text = "") :
    hasManufacturerInfo ocr = false := by
  simp only [hasManufacturerInfo, h, List.any_eq_false]
  intro a ha
  fin_cases ha <;> exact fuzzySearch_empty_not _ _ (by decide) (by norm_num)

theorem detectBarcodeQR_empty_text (ocr : OCRResult) (h : ocr.text = "") :
    detectBarcodeQR ocr = { hasBarcode := false, hasQRCode := false, confidence := 3/10 } := by
  have hq : (["qr", "scan", "escanea", "código", "codigo"].any
      (fun p => fuzzySearch "" p (7/10))) = false := by
    simp only [List.any_eq_false]
    intro a ha
    fin_cases ha <;> exact fuzzySearch_empty_not _ _ (by decide) (by norm_num)
  have hb : (["barras", "ean", "upc", "código", "codigo"].any
      (fun p => fuzzySearch "" p (7/10))) = false := by
    simp only [List.any_eq_false]
    intro a ha
    fin_cases ha <;> exact fuzzySearch_empty_not _ _ (by decide) (by norm_num)
  simp [detectBarcodeQR, h, hq, hb, digitRuns]

theorem hasNutritionalInfo_empty_text (ocr : OCRResult) (h : ocr.text = "") :
    hasNutritionalInfo ocr = false := by
  have hkw : (List.filter (fun k => fuzzySearch "" k (7/10))
      ["informacion nutricional", "información nutricional", "nutricional",
       "calorias", "calorías", "proteina", "proteína", "grasa",
       "carbohidrato", "kcal", "nutricion"]) = [] := by
    rw [List.filter_eq_nil_iff]
    intro a ha
    fin_cases ha <;> exact fuzzySearch_empty_not _ _ (by decide) (by norm_num)
  simp [hasNutritionalInfo, h, hkw, pipeDigitTest, scanUnits, portionTest,
    informaNutriTest, containsCI, jsIncludes, jsToLower,
    show ("" : String).data = ([] : List Char) from rfl]


/-- C5: an OCR result with empty text and no structured words yields the
all-zero density metrics, and running the full scoring pipeline on it
(density, barcode/QR analysis and signal detectors of that result)
produces total score 0, confidence 0 and a negative label decision. -/
theorem emptyOcr_zero_spec (conf w h : ℚ) :
    (analyzeTextDensity { text := "", confidence := conf, words := [] } w h).totalTextArea = 0 ∧
    (analyzeTextDensity { text := "", confidence := conf, words := [] } w h).textCoveragePercentage = 0 ∧
    (analyzeTextDensity { text := "", confidence := conf, words := [] } w h).textBlockCount = 0 ∧
    (analyzeTextDensity { text := "", confidence := conf, words := [] } w h).averageWordConfidence = 0 ∧
    (analyzeTextDensity { text := "", confidence := conf, words := [] } w h).wordsDetected = 0 ∧
    totalScore (analyzeTextDensity { text := "", confidence := conf, words := [] } w h)
      (detectBarcodeQR { text := "", confidence := conf, words := [] })
      (hasNutritionalInfo { text := "", confidence := conf, words := [] })
      { text := "", confidence := conf, words := [] } = 0 ∧
    (calculateLabelScore (analyzeTextDensity { text := "", confidence := conf, words := [] } w h)
      (detectBarcodeQR { text := "", confidence := conf, words := [] })
      (hasNutritionalInfo { text := "", confidence := conf, words := [] })
      { text := "", confidence := conf, words := [] }).isLabel = false ∧
    (calculateLabelScore (analyzeTextDensity { text := "", confidence := conf, words := [] } w h)
      (detectBarcodeQR { text := "", confidence := conf, words := [] })
      (hasNutritionalInfo { text := "", confidence := conf, words := [] })
      { text := "", confidence := conf, words := [] }).confidence = 0 := by
  have htd : analyzeTextDensity { text := "", confidence := conf, words := [] } w h =
      { totalTextArea := 0, imageArea := w * h, textCoveragePercentage := 0,
        textBlockCount := 0, averageWordConfidence := 0, wordsDetected := 0 } := rfl
  have hocr : ({ text := "", confidence := conf, words := [] } : OCRResult).text = "" := rfl
  have hts : totalScore (analyzeTextDensity { text := "", confidence := conf, words := [] } w h)
      (detectBarcodeQR { text := "", confidence := conf, words := [] })
      (hasNutritionalInfo { text := "", confidence := conf, words := [] })
      { text := "", confidence := conf, words := [] } = 0 := by
    rw [htd, detectBarcodeQR_empty_text _ hocr]
    norm_num [totalScore, crit0, crit1, crit2, crit3, crit4, crit5, crit6, crit7, crit8,
      hasIngredients_empty_text _ hocr, hasStorageInfo_empty_text _ hocr,
      hasManufacturerInfo_empty_text _ hocr, hasNutritionalInfo_empty_text _ hocr,
      jsTrim]
  refine ⟨rfl, rfl, rfl, rfl, rfl, hts, ?_, ?_⟩
  · have := engineState_fst (analyzeTextDensity { text := "", confidence := conf, words := [] } w h)
      (detectBarcodeQR { text := "", confidence := conf, words := [] })
      (hasNutritionalInfo { text := "", confidence := conf, words := [] })
      { text := "", confidence := conf, words := [] }
    simp only [calculateLabelScore, this, hts, ge_iff_le, decide_eq_false_iff_not, not_le]
    norm_num
  · have := engineState_fst (analyzeTextDensity { text := "", confidence := conf, words := [] } w h)
      (detectBarcodeQR { text := "", confidence := conf, words := [] })
      (hasNutritionalInfo { text := "", confidence := conf, words := [] })
      { text := "", confidence := conf, words := [] }
    simp only [calculateLabelScore, this, hts]
    norm_num

theorem crit3_mono {m n : ℕ} (h : m ≤ n) : (crit3 m).1 ≤ (crit3 n).1 := by
  unfold crit3
  split_ifs <;> try norm_num
  all_goals omega

/-- C9: the scoring engine's total is monotone non-decreasing in
`wordsDetected` when every other metric and detector input is held
fixed. -/
theorem totalScore_monotone_wordsDetected (td : TextDensityAnalysis)
    (bq : BarcodeQRAnalysis) (hasNutri : Bool) (ocr : OCRResult) (n : ℕ)
    (h : td.wordsDetected ≤ n) :
    totalScore td bq hasNutri ocr ≤
      totalScore { td with wordsDetected := n } bq hasNutri ocr := by
  unfold totalScore
  simp only
  gcongr
  exact crit3_mono h

/-- Witness for C9 at a concrete pair of inputs differing only in
`wordsDetected` (3 versus 7). -/
theorem totalScore_monotone_wordsDetected_witness :
    (tdFixture 3).wordsDetected ≤ 7 ∧
      totalScore (tdFixture 3) bqFixture false ocrEmptyFixture ≤
        totalScore { tdFixture 3 with wordsDetected := 7 } bqFixture false ocrEmptyFixture :=
  ⟨by decide, totalScore_monotone_wordsDetected _ _ _ _ 7 (by decide)⟩

theorem chunkArray_foldl {α β : Type} (f : β → α → β) (c : ℕ) (hc : c ≠ 0) :
    ∀ (xs : List α) (init : β),
      (chunkArray c xs).foldl (fun b chunk => chunk.foldl f b) init = xs.foldl f init := by
  have main : ∀ (n : ℕ) (xs : List α), xs.length ≤ n → ∀ init : β,
      (chunkArray c xs).foldl (fun b chunk => chunk.foldl f b) init = xs.foldl f init := by
    intro n
    induction n with
    | zero =>
      intro xs hlen init
      have hx : xs = [] := List.length_eq_zero.mp (Nat.le_zero.mp hlen)
      subst hx
      simp [chunkArray]
    | succ n ih =>
      intro xs hlen init
      cases xs with
      | nil => simp [chunkArray]
      | cons x xs =>
        rw [chunkArray.eq_def]
        simp only [if_neg hc]
        rw [List.foldl_cons, ih (((x :: xs).drop c)) ?_ (List.foldl f init ((x :: xs).take c))]
        · rw [← List.foldl_append, List.take_append_drop]
        · have hlen' : (x :: xs).length ≤ n + 1 := hlen
          simp only [List.length_cons] at hlen'
          simp only [List.length_drop, List.length_cons]
          omega
  intro xs init
  exact main xs.length xs le_rfl init

theorem jsMapSet_fresh {α : Type} (m : List (String × α)) (k : String) (v : α)
    (h : ∀ p ∈ m, p.1 ≠ k) : jsMapSet m k v = m ++ [(k, v)] := by
  unfold jsMapSet
  have hany : (m.any (fun p => p.1 = k)) = false := by
    rw [List.any_eq_false]
    intro p hp
    simp [h p hp]
  rw [hany]
  simp

theorem jsMapGet_append_last {α : Type} (m : List (String × α)) (k : String) (v : α)
    (h : ∀ p ∈ m, p.1 ≠ k) : jsMapGet (m ++ [(k, v)]) k = some v := by
  induction m with
  | nil => simp [jsMapGet, List.find?]
  | cons p m ih =>
    have hp : p.1 ≠ k := h p (List.mem_cons_self p m)
    simp only [jsMapGet, List.cons_append, List.find?]
    rw [show (decide (p.1 = k)) = false from by simp [hp]]
    exact ih (fun q hq => h q (List.mem_cons_of_mem p hq))

theorem jsMapGet_append_other {α : Type} (m : List (String × α)) (k : String) (v : α)
    (k' : String) (h : k' ≠ k) : jsMapGet (m ++ [(k, v)]) k' = jsMapGet m k' := by
  induction m with
  | nil =>
    have hd : (decide (k = k')) = false := by simp [Ne.symm h]
    simp [jsMapGet, List.find?, hd]
  | cons p m ih =>
    simp only [jsMapGet, List.cons_append, List.find?] at ih ⊢
    cases hd : decide (p.1 = k') with
    | true => rfl
    | false => exact ih

theorem batch_fold_invariant (g : ProductImage → LabelDetectionResult) :
    ∀ (images : List ProductImage) (acc : List (String × LabelDetectionResult)),
      (images.map ProductImage._id).Nodup →
      (∀ img ∈ images, ∀ p ∈ acc, p.1 ≠ img._id) →
      (images.foldl (fun res img => jsMapSet res img._id (g img)) acc).length
          = acc.length + images.length ∧
        (∀ img ∈ images,
          jsMapGet (images.foldl (fun res img => jsMapSet res img._id (g img)) acc) img._id
            = some (g img)) ∧
        (∀ k : String, (∀ img ∈ images, img._id ≠ k) →
          jsMapGet (images.foldl (fun res img => jsMapSet res img._id (g img)) acc) k
            = jsMapGet acc k) := by
  intro images
  induction images with
  | nil => intro acc _ _; simp
  | cons img rest ih =>
    intro acc hnd hfresh
    have hstep : jsMapSet acc img._id (g img) = acc ++ [(img._id, g img)] :=
      jsMapSet_fresh acc img._id (g img)
        (fun p hp => hfresh img (List.mem_cons_self img rest) p hp)
    have hndr : (rest.map ProductImage._id).Nodup := (List.nodup_cons.mp hnd).2
    have hhead : img._id ∉ rest.map ProductImage._id := (List.nodup_cons.mp hnd).1
    have hfreshr : ∀ r ∈ rest, ∀ p ∈ acc ++ [(img._id, g img)], p.1 ≠ r._id := by
      intro r hr p hp
      rcases List.mem_append.mp hp with hin | hin
      · exact hfresh r (List.mem_cons_of_mem img hr) p hin
      · simp only [List.mem_singleton] at hin
        subst hin
        intro hcontra
        have hcontra' : img._id = r._id := hcontra
        exact hhead (by
          rw [hcontra']
          exact List.mem_map_of_mem ProductImage._id hr)
    obtain ⟨ihlen, ihget, ihother⟩ := ih (acc ++ [(img._id, g img)]) hndr hfreshr
    rw [List.foldl_cons, hstep]
    refine ⟨?_, ?_, ?_⟩
    · rw [ihlen]
      simp only [List.length_append, List.length_cons, List.length_nil]
      omega
    · intro i hi
      rcases List.mem_cons.mp hi with heq | hin
      · subst heq
        rw [ihother i._id (by
          intro r hr
          intro hcontra
          exact hhead (by
            rw [← hcontra]
            exact List.mem_map_of_mem ProductImage._id hr))]
        exact jsMapGet_append_last acc i._id (g i)
          (fun p hp => hfresh i (List.mem_cons_self i rest) p hp)
      · exact ihget i hin
    · intro k hk
      rw [ihother k (fun r hr => hk r (List.mem_cons_of_mem img hr))]
      exact jsMapGet_append_other acc img._id (g img) k
        (Ne.symm (hk img (List.mem_cons_self img rest)))

theorem detectLabelsInBatch_eq_foldl (f : ProductImage → Except String LabelDetectionResult)
    (c : ℕ) (hc : c ≠ 0) (images : List ProductImage) :
    detectLabelsInBatch f c images =
      images.foldl (fun res img => jsMapSet res img._id (batchOutcome f img)) [] := by
  unfold detectLabelsInBatch
  have hfun : (fun (results : List (String × LabelDetectionResult)) (image : ProductImage) =>
      match f image with
      | Except.ok value => jsMapSet results image._id value
      | Except.error e => jsMapSet results image._id (errorFallbackResult e)) =
      fun res img => jsMapSet res img._id (batchOutcome f img) := by
    funext results image
    cases hfi : f image <;> simp [batchOutcome, hfi]
  rw [hfun]
  exact chunkArray_foldl _ c hc images []

/-- C2 (amended): for a batch whose image ids are pairwise distinct, the
result map has exactly one entry per image; every image whose pipeline
rejected is mapped to the zero-confidence fallback (not a label,
confidence 0, non-empty error reasoning, all-zero metrics), every image
whose pipeline fulfilled is mapped to its real result, and no per-image
failure aborts the batch. -/
theorem detectLabelsInBatch_spec (f : ProductImage → Except String LabelDetectionResult)
    (c : ℕ) (hc : c ≠ 0) (images : List ProductImage)
    (hnd : (images.map ProductImage._id).Nodup) :
    (detectLabelsInBatch f c images).length = images.length ∧
      (∀ img ∈ images, ∀ e, f img = Except.error e →
        jsMapGet (detectLabelsInBatch f c images) img._id = some (errorFallbackResult e) ∧
          (errorFallbackResult e).isProductLabel = false ∧
          (errorFallbackResult e).confidence = 0 ∧
          (errorFallbackResult e).reasoning ≠ "" ∧
          (errorFallbackResult e).metrics.textCoverage = 0 ∧
          (errorFallbackResult e).metrics.textBlockCount = 0 ∧
          (errorFallbackResult e).metrics.wordCount = 0 ∧
          (errorFallbackResult e).metrics.averageTextConfidence = 0) ∧
      (∀ img ∈ images, ∀ v, f img = Except.ok v →
        jsMapGet (detectLabelsInBatch f c images) img._id = some v) := by
  rw [detectLabelsInBatch_eq_foldl f c hc]
  obtain ⟨hlen, hget, -⟩ := batch_fold_invariant (batchOutcome f) images [] hnd (by simp)
  refine ⟨by simpa using hlen, ?_, ?_⟩
  · intro img hi e hfe
    refine ⟨?_, rfl, rfl, ?_, rfl, rfl, rfl, rfl⟩
    · rw [hget img hi]
      simp [batchOutcome, hfe]
    · intro hcon
      have hlen0 := congrArg String.length hcon
      simp only [errorFallbackResult] at hlen0
      rw [String.length_append] at hlen0
      have h7 : ("Error: ").length = 7 := by decide
      have h0 : ("" : String).length = 0 := rfl
      rw [h7, h0] at hlen0
      omega
  · intro img hi v hfv
    rw [hget img hi]
    simp [batchOutcome, hfv]

/-- Witness for C2 at a concrete two-image batch in which the image "b"
rejects and the image "a" fulfills. -/
theorem detectLabelsInBatch_spec_witness :
    (detectLabelsInBatch detectFixture 2 [{ _id := "a" }, { _id := "b" }]).length = 2 ∧
      jsMapGet (detectLabelsInBatch detectFixture 2 [{ _id := "a" }, { _id := "b" }]) "b"
        = some (errorFallbackResult "boom") ∧
      jsMapGet (detectLabelsInBatch detectFixture 2 [{ _id := "a" }, { _id := "b" }]) "a"
        = some resultFixture := by
  obtain ⟨h1, h2, h3⟩ := detectLabelsInBatch_spec detectFixture 2 (by decide)
    [{ _id := "a" }, { _id := "b" }] (by decide)
  refine ⟨h1, ?_, ?_⟩
  · exact (h2 { _id := "b" } (by simp) "boom" (by simp [detectFixture])).1
  · exact h3 { _id := "a" } (by simp) resultFixture (by simp [detectFixture])

/-- C2 counterexample: a batch of two images sharing the identifier "a"
yields a map with a single entry, not one entry per image, because the
second write replaces the first under the shared key. -/
theorem detectLabelsInBatch_duplicate_ids :
    (detectLabelsInBatch (fun _ => Except.ok resultFixture) 1
        [{ _id := "a" }, { _id := "a" }]).length = 1 ∧
      ([({ _id := "a" } : ProductImage), { _id := "a" }]).length = 2 := by
  constructor
  · simp [detectLabelsInBatch, chunkArray, jsMapSet]
  · rfl

/-- C3: the analyzer's coverage percentage is uncapped in the word-based
branch (it is the raw area ratio and can exceed 100), while the plain-text
fallback computes the estimated area as 10 × 15 pixels per trimmed
character, caps the coverage at 100 — equivalently, caps the estimated
area at the image area — and sets the block count to
`max(floor(nonEmptyLines / 2), 1)` and the average confidence to the
engine-level confidence. -/
theorem analyzeTextDensity_coverage_cap_spec :
    (∀ (ocr : OCRResult) (w h : ℚ), ocr.words ≠ [] →
        (analyzeTextDensity ocr w h).textCoveragePercentage =
          (ocr.words.map (fun word =>
            (word.bbox.x1 - word.bbox.x0) * (word.bbox.y1 - word.bbox.y0))).sum
            / (w * h) * 100) ∧
      (∃ (ocr : OCRResult) (w h : ℚ), ocr.words ≠ [] ∧
        (analyzeTextDensity ocr w h).textCoveragePercentage > 100) ∧
      (∀ (ocr : OCRResult) (w h : ℚ), ocr.words = [] → jsTrim ocr.text.data ≠ [] →
        0 < w * h →
        (analyzeTextDensity ocr w h).textCoveragePercentage =
            min (((jsTrim ocr.text.data).length : ℚ) * 10 * 15 / (w * h) * 100) 100 ∧
          (analyzeTextDensity ocr w h).textCoveragePercentage =
            (min (((jsTrim ocr.text.data).length : ℚ) * 10 * 15) (w * h)) / (w * h) * 100 ∧
          (analyzeTextDensity ocr w h).textBlockCount =
            max (((splitNl (jsTrim ocr.text.data)).filter
              (fun line => (jsTrim line).length > 0)).length / 2) 1 ∧
          (analyzeTextDensity ocr w h).averageWordConfidence = ocr.confidence) := by
  refine ⟨?_, ?_, ?_⟩
  · intro ocr w h hw
    rw [analyzeTextDensity, if_pos (List.length_pos.mpr hw)]
    rfl
  · refine ⟨ocrWideFixture, 5, 5, by simp [ocrWideFixture], ?_⟩
    rw [analyzeTextDensity, if_pos (by simp [ocrWideFixture])]
    show (ocrWideFixture.words.map (fun word =>
      (word.bbox.x1 - word.bbox.x0) * (word.bbox.y1 - word.bbox.y0))).sum / (5 * 5) * 100 > 100
    norm_num [ocrWideFixture]
  · intro ocr w h hw ht hA
    rw [analyzeTextDensity, if_neg (by simp [hw]),
      if_pos (List.length_pos.mpr ht)]
    refine ⟨rfl, ?_, rfl, rfl⟩
    show min (((jsTrim ocr.text.data).length : ℚ) * 10 * 15 / (w * h) * 100) 100 =
      (min (((jsTrim ocr.text.data).length : ℚ) * 10 * 15) (w * h)) / (w * h) * 100
    rw [eq_comm, ← min_div_div_right (le_of_lt hA),
      min_mul_of_nonneg _ _ (by norm_num : (0:ℚ) ≤ 100), div_self (ne_of_gt hA), one_mul]

/-- Witness for C3: the uncapped word branch on the wide-box fixture over
a 5 × 5 image, and the fallback equalities on a plain-text fixture over a
100 × 100 image. -/
theorem analyzeTextDensity_coverage_cap_spec_witness :
    (analyzeTextDensity ocrWideFixture 5 5).textCoveragePercentage =
        (ocrWideFixture.words.map (fun word =>
          (word.bbox.x1 - word.bbox.x0) * (word.bbox.y1 - word.bbox.y0))).sum
          / (5 * 5) * 100 ∧
      (analyzeTextDensity ocrPlainFixture 100 100).averageWordConfidence =
        ocrPlainFixture.confidence :=
  ⟨analyzeTextDensity_coverage_cap_spec.1 ocrWideFixture 5 5 (by simp [ocrWideFixture]),
    (analyzeTextDensity_coverage_cap_spec.2.2 ocrPlainFixture 100 100 rfl
      (by decide) (by norm_num)).2.2.2⟩

theorem blockCount_keys (ocr : OCRResult) (w h : ℚ) (hw : ocr.words ≠ []) :
    (analyzeTextDensity ocr w h).textBlockCount =
      ((ocr.words.map (fun word =>
        toString (⌊((word.bbox.x0 + word.bbox.x1) / 2) / ((1000 : ℚ) / 5)⌋ : ℤ) ++ "," ++
          toString (⌊((word.bbox.y0 + word.bbox.y1) / 2) / ((1000 : ℚ) / 5)⌋ : ℤ))).dedup).length := by
  rw [analyzeTextDensity, if_pos (List.length_pos.mpr hw)]
  show countTextBlocks (ocr.words.map (fun word =>
      ((word.bbox.x0 + word.bbox.x1) / 2, (word.bbox.y0 + word.bbox.y1) / 2))) 1000 1000 = _
  rw [countTextBlocks]
  rw [if_neg (by simp [hw])]
  simp only [List.map_map]
  rfl

/-- C4 (amended): for every OCR result with structured words,
`textBlockCount` is the number of distinct occupied cells of the
200 × 200-unit grid keyed by the floored center coordinates; when every
word center lies inside the 1000 × 1000 reference space the grid is
effectively 5 × 5 and the count never exceeds 25 (for centers outside the
reference space the indices are unbounded and the count can exceed 25). -/
theorem countTextBlocks_grid_spec :
    (∀ (ocr : OCRResult) (w h : ℚ), ocr.words ≠ [] →
        (analyzeTextDensity ocr w h).textBlockCount =
          ((ocr.words.map (fun word =>
            toString (⌊((word.bbox.x0 + word.bbox.x1) / 2) / ((1000 : ℚ) / 5)⌋ : ℤ) ++ "," ++
              toString (⌊((word.bbox.y0 + word.bbox.y1) / 2) / ((1000 : ℚ) / 5)⌋ : ℤ))).dedup).length) ∧
      (∀ (ocr : OCRResult) (w h : ℚ), ocr.words ≠ [] →
        (∀ word ∈ ocr.words,
          0 ≤ (word.bbox.x0 + word.bbox.x1) / 2 ∧ (word.bbox.x0 + word.bbox.x1) / 2 < 1000 ∧
            0 ≤ (word.bbox.y0 + word.bbox.y1) / 2 ∧ (word.bbox.y0 + word.bbox.y1) / 2 < 1000) →
        (analyzeTextDensity ocr w h).textBlockCount ≤ 25) := by
  have cellmem : ∀ (c : ℚ), 0 ≤ c → c < 1000 →
      0 ≤ ⌊c / ((1000:ℚ)/5)⌋ ∧ ⌊c / ((1000:ℚ)/5)⌋ < 5 := by
    intro c h0 h1
    have h200 : (1000:ℚ)/5 = 200 := by norm_num
    rw [h200]
    refine ⟨Int.floor_nonneg.mpr (div_nonneg h0 (by norm_num)), ?_⟩
    rw [Int.floor_lt, div_lt_iff₀ (by norm_num : (0:ℚ) < 200)]
    push_cast
    linarith
  refine ⟨fun ocr w h hw => blockCount_keys ocr w h hw, ?_⟩
  intro ocr w h hw hin
  rw [blockCount_keys ocr w h hw]
  have hcard : ((ocr.words.map (fun word =>
      toString (⌊((word.bbox.x0 + word.bbox.x1) / 2) / ((1000 : ℚ) / 5)⌋ : ℤ) ++ "," ++
        toString (⌊((word.bbox.y0 + word.bbox.y1) / 2) / ((1000 : ℚ) / 5)⌋ : ℤ))).dedup).length =
      (ocr.words.map (fun word =>
        toString (⌊((word.bbox.x0 + word.bbox.x1) / 2) / ((1000 : ℚ) / 5)⌋ : ℤ) ++ "," ++
          toString (⌊((word.bbox.y0 + word.bbox.y1) / 2) / ((1000 : ℚ) / 5)⌋ : ℤ))).toFinset.card :=
    (List.card_toFinset _).symm
  rw [hcard]
  have hsub : (ocr.words.map (fun word =>
      toString (⌊((word.bbox.x0 + word.bbox.x1) / 2) / ((1000 : ℚ) / 5)⌋ : ℤ) ++ "," ++
        toString (⌊((word.bbox.y0 + word.bbox.y1) / 2) / ((1000 : ℚ) / 5)⌋ : ℤ))).toFinset ⊆
      ((Finset.range 5) ×ˢ (Finset.range 5)).image
        (fun p : ℕ × ℕ => toString ((p.1 : ℤ)) ++ "," ++ toString ((p.2 : ℤ))) := by
    intro x hx
    rw [List.mem_toFinset, List.mem_map] at hx
    obtain ⟨word, hword, hxeq⟩ := hx
    obtain ⟨hx0, hx1, hy0, hy1⟩ := hin word hword
    obtain ⟨hcx0, hcx1⟩ := cellmem _ hx0 hx1
    obtain ⟨hcy0, hcy1⟩ := cellmem _ hy0 hy1
    rw [Finset.mem_image]
    refine ⟨((⌊((word.bbox.x0 + word.bbox.x1) / 2) / ((1000 : ℚ) / 5)⌋ : ℤ).toNat,
      (⌊((word.bbox.y0 + word.bbox.y1) / 2) / ((1000 : ℚ) / 5)⌋ : ℤ).toNat), ?_, ?_⟩
    · rw [Finset.mem_product, Finset.mem_range, Finset.mem_range]
      omega
    · rw [Int.toNat_of_nonneg hcx0, Int.toNat_of_nonneg hcy0]
      exact hxeq
  calc (ocr.words.map (fun word =>
        toString (⌊((word.bbox.x0 + word.bbox.x1) / 2) / ((1000 : ℚ) / 5)⌋ : ℤ) ++ "," ++
          toString (⌊((word.bbox.y0 + word.bbox.y1) / 2) / ((1000 : ℚ) / 5)⌋ : ℤ))).toFinset.card
      ≤ (((Finset.range 5) ×ˢ (Finset.range 5)).image
          (fun p : ℕ × ℕ => toString ((p.1 : ℤ)) ++ "," ++ toString ((p.2 : ℤ)))).card :=
        Finset.card_le_card hsub
    _ ≤ ((Finset.range 5) ×ˢ (Finset.range 5)).card := Finset.card_image_le
    _ = 25 := by simp

/-- Witness for C4 at a fixture whose single word center (50, 50) lies
inside the reference space. -/
theorem countTextBlocks_grid_spec_witness :
    (analyzeTextDensity ocrWideFixture 5 5).textBlockCount =
        ((ocrWideFixture.words.map (fun word =>
          toString (⌊((word.bbox.x0 + word.bbox.x1) / 2) / ((1000 : ℚ) / 5)⌋ : ℤ) ++ "," ++
            toString (⌊((word.bbox.y0 + word.bbox.y1) / 2) / ((1000 : ℚ) / 5)⌋ : ℤ))).dedup).length ∧
      (analyzeTextDensity ocrWideFixture 5 5).textBlockCount ≤ 25 :=
  ⟨countTextBlocks_grid_spec.1 ocrWideFixture 5 5 (by simp [ocrWideFixture]),
    countTextBlocks_grid_spec.2 ocrWideFixture 5 5 (by simp [ocrWideFixture])
      (by
        intro word hword
        simp only [ocrWideFixture, List.mem_singleton] at hword
        subst hword
        norm_num)⟩

/-- C4 counterexample: 26 words at pixel x-centers 0, 400, …, 10000 (far
outside the 1000 × 1000 reference space) occupy 26 distinct cells of the
unbounded grid, so `textBlockCount` exceeds 25. -/
theorem textBlockCount_exceeds_25 :
    25 < (analyzeTextDensity ocrManyCellsFixture 1000 1000).textBlockCount := by
  rw [blockCount_keys ocrManyCellsFixture 1000 1000 (by simp [ocrManyCellsFixture])]
  have hexp : ocrManyCellsFixture.words = (List.range 26).map manyCellsWord := rfl
  rw [hexp, List.map_map]
  have hfun : ∀ k ∈ List.range 26,
      ((fun word : OCRWord =>
        toString (⌊((word.bbox.x0 + word.bbox.x1) / 2) / ((1000 : ℚ) / 5)⌋ : ℤ) ++ "," ++
          toString (⌊((word.bbox.y0 + word.bbox.y1) / 2) / ((1000 : ℚ) / 5)⌋ : ℤ)) ∘
        manyCellsWord) k =
      toString ((2 * k : ℕ) : ℤ) ++ "," ++ toString ((0 : ℤ)) := by
    intro k _
    simp only [Function.comp]
    have hx : ((400 * (k:ℚ) + 400 * k) / 2) / ((1000:ℚ)/5) = ((2 * k : ℕ) : ℚ) := by
      push_cast
      ring
    have hy : (((0:ℚ) + 0) / 2) / ((1000:ℚ)/5) = 0 := by norm_num
    rw [show (manyCellsWord k).bbox.x0 = 400 * (k:ℚ) from rfl]
    rw [show (manyCellsWord k).bbox.x1 = 400 * (k:ℚ) from rfl]
    rw [show (manyCellsWord k).bbox.y0 = 0 from rfl]
    rw [show (manyCellsWord k).bbox.y1 = 0 from rfl]
    rw [hx, hy, Int.floor_natCast, Int.floor_zero]
  rw [List.map_congr_left hfun]
  decide

theorem jsTrim_subset (s : List Char) : ∀ x ∈ jsTrim s, x ∈ s := by
  intro x hx
  unfold jsTrim at hx
  rw [List.mem_reverse] at hx
  have h1 := (List.dropWhile_sublist (l := (s.dropWhile isWsChar).reverse) (p := isWsChar)).mem hx
  rw [List.mem_reverse] at h1
  exact (List.dropWhile_sublist (l := s) (p := isWsChar)).mem h1

theorem jsTrim_exists_nonws (s : List Char) (h : jsTrim s ≠ []) :
    ∃ c ∈ jsTrim s, isWsChar c = false := by
  have h1 : ((s.dropWhile isWsChar).reverse.dropWhile isWsChar) ≠ [] := by
    intro h0
    exact h (by unfold jsTrim; rw [h0]; rfl)
  refine ⟨((s.dropWhile isWsChar).reverse.dropWhile isWsChar).head h1, ?_, ?_⟩
  · unfold jsTrim
    rw [List.mem_reverse]
    exact List.head_mem h1
  · exact List.head_dropWhile_not isWsChar _ h1

theorem jsTrim_pos_iff (l : List Char) :
    0 < (jsTrim l).length ↔ ∃ c ∈ l, isWsChar c = false := by
  constructor
  · intro h
    obtain ⟨c, hc, hcw⟩ := jsTrim_exists_nonws l (by
      intro h0
      rw [h0] at h
      simp at h)
    exact ⟨c, jsTrim_subset l c hc, hcw⟩
  · rintro ⟨c, hc, hcw⟩
    have h1 : l.dropWhile isWsChar ≠ [] := by
      rw [Ne, List.dropWhile_eq_nil_iff]
      intro hall
      rw [hall c hc] at hcw
      exact absurd hcw (by simp)
    have hhead := List.head_dropWhile_not isWsChar l h1
    have hmem : (l.dropWhile isWsChar).head h1 ∈ (l.dropWhile isWsChar).reverse := by
      rw [List.mem_reverse]
      exact List.head_mem h1
    have h2 : (l.dropWhile isWsChar).reverse.dropWhile isWsChar ≠ [] := by
      rw [Ne, List.dropWhile_eq_nil_iff]
      intro hall
      rw [hall _ hmem] at hhead
      exact absurd hhead (by simp)
    unfold jsTrim
    rw [List.length_reverse]
    exact List.length_pos.mpr h2

theorem splitNl_ne_nil (s : List Char) : splitNl s ≠ [] := by
  induction s with
  | nil => simp [splitNl]
  | cons c cs ih =>
    by_cases hc : c = '\n'
    · rw [splitNl.eq_def]
      simp [hc]
    · cases h : splitNl cs with
      | nil => exact absurd h ih
      | cons l ls =>
        rw [splitNl.eq_def]
        simp [hc, h]

theorem splitNl_cons_of_ne (e : Char) (es : List Char) (he : e ≠ '\n') :
    ∃ l ls, splitNl es = l :: ls ∧ splitNl (e :: es) = (e :: l) :: ls := by
  cases hsp : splitNl es with
  | nil => exact absurd hsp (splitNl_ne_nil es)
  | cons l ls =>
    refine ⟨l, ls, rfl, ?_⟩
    rw [splitNl.eq_def]
    simp [he, hsp]

theorem splitWs_cons_nonws (c : Char) (cs : List Char) (hc : isWsChar c = false) :
    ∃ t ts, splitWs cs = t :: ts ∧ splitWs (c :: cs) = (c :: t) :: ts := by
  cases hsp : splitWs cs with
  | nil => exact absurd hsp (splitWs_ne_nil cs)
  | cons t ts =>
    refine ⟨t, ts, rfl, ?_⟩
    rw [splitWs.eq_def]
    simp [hc, hsp]

theorem splitWs_ws_head : ∀ (es : List Char) (e : Char), isWsChar e = true →
    ∃ ts, splitWs (e :: es) = [] :: ts := by
  intro es
  induction es with
  | nil =>
    intro e he
    refine ⟨[[]], ?_⟩
    rw [splitWs.eq_def]
    simp [he]
  | cons d ds ih =>
    intro e he
    by_cases hd : isWsChar d
    · obtain ⟨ts, hts⟩ := ih d hd
      refine ⟨ts, ?_⟩
      rw [splitWs.eq_def]
      simp only [he, hd, if_true]
      exact hts
    · refine ⟨splitWs (d :: ds), ?_⟩
      rw [splitWs.eq_def]
      simp [he, hd]

theorem splitWs_head_nonws (cs : List Char) (t : List Char) (ts : List (List Char))
    (hts : splitWs cs = t :: ts) (ht : t ≠ []) :
    ∃ e es, cs = e :: es ∧ isWsChar e = false := by
  cases cs with
  | nil =>
    rw [show splitWs [] = [[]] from rfl] at hts
    injection hts with h1 _
    exact absurd h1.symm ht
  | cons e es =>
    by_cases he : isWsChar e
    · obtain ⟨ts2, hts2⟩ := splitWs_ws_head es e he
      rw [hts2] at hts
      injection hts with h1 _
      exact absurd h1.symm ht
    · exact ⟨e, es, rfl, by simpa using he⟩

theorem tokens_pos (s : List Char) (h : ∃ c ∈ s, isWsChar c = false) :
    1 ≤ ((splitWs s).filter (fun w => w.length > 0)).length := by
  induction s with
  | nil => simp at h
  | cons c cs ih =>
    by_cases hc : isWsChar c
    · obtain ⟨x, hx, hxw⟩ := h
      have hxcs : x ∈ cs := by
        rcases List.mem_cons.mp hx with rfl | hm
        · rw [hc] at hxw
          exact absurd hxw (by simp)
        · exact hm
      cases cs with
      | nil => exact absurd hxcs (List.not_mem_nil x)
      | cons d ds =>
        by_cases hd : isWsChar d
        · have hF : splitWs (c :: d :: ds) = splitWs (d :: ds) := by
            rw [splitWs.eq_def]
            simp [hc, hd]
          rw [hF]
          exact ih ⟨x, hxcs, hxw⟩
        · have hF : splitWs (c :: d :: ds) = [] :: splitWs (d :: ds) := by
            rw [splitWs.eq_def]
            simp [hc, hd]
          rw [hF]
          simpa using ih ⟨x, hxcs, hxw⟩
    · obtain ⟨t, ts, hts, heq⟩ := splitWs_cons_nonws c cs (by simpa using hc)
      rw [heq]
      simp [List.filter_cons]

theorem lines_le_tokens (s : List Char) :
    ((splitNl s).filter (fun line => decide (∃ x ∈ line, isWsChar x = false))).length ≤
      ((splitWs s).filter (fun w => w.length > 0)).length := by
  induction s with
  | nil => simp [splitNl, splitWs]
  | cons c cs ih =>
    by_cases hc : isWsChar c
    · cases cs with
      | nil =>
        by_cases hnl : c = '\n'
        · subst hnl
          rw [show splitNl ['\n'] = [[], []] from by rw [splitNl.eq_def]; simp [splitNl]]
          rw [show splitWs ['\n'] = [[], []] from by rw [splitWs.eq_def]; simp [hc]]
          simp
        · obtain ⟨l, ls, hsp, hGeq⟩ := splitNl_cons_of_ne c [] hnl
          rw [show splitNl ([] : List Char) = [[]] from rfl] at hsp
          injection hsp with h1 h2
          subst h1
          subst h2
          rw [hGeq]
          rw [show splitWs [c] = [[], []] from by rw [splitWs.eq_def]; simp [hc]]
          have hpc : (decide (∃ x ∈ [c], isWsChar x = false)) = false := by
            simp [hc]
          simp [List.filter_cons, hpc, hc]
      | cons d ds =>
        have hGle : ((splitNl (c :: d :: ds)).filter
            (fun line => decide (∃ x ∈ line, isWsChar x = false))).length =
            ((splitNl (d :: ds)).filter
              (fun line => decide (∃ x ∈ line, isWsChar x = false))).length := by
          by_cases hnl : c = '\n'
          · subst hnl
            rw [show splitNl ('\n' :: d :: ds) = [] :: splitNl (d :: ds) from by
              rw [splitNl.eq_def]; simp]
            simp [List.filter_cons]
          · obtain ⟨l, ls, hsp, hGeq⟩ := splitNl_cons_of_ne c (d :: ds) hnl
            rw [hGeq, hsp]
            have hpred : (decide (∃ x ∈ c :: l, isWsChar x = false)) =
                (decide (∃ x ∈ l, isWsChar x = false)) := by
              apply decide_eq_decide.mpr
              constructor
              · rintro ⟨x, hx, hxw⟩
                rcases List.mem_cons.mp hx with rfl | hm
                · rw [hc] at hxw
                  exact absurd hxw (by simp)
                · exact ⟨x, hm, hxw⟩
              · rintro ⟨x, hx, hxw⟩
                exact ⟨x, List.mem_cons_of_mem c hx, hxw⟩
            by_cases hq : (decide (∃ x ∈ l, isWsChar x = false)) = true
            · simp [List.filter_cons, hpred, hq]
            · rw [Bool.not_eq_true] at hq
              simp [List.filter_cons, hpred, hq, hc]
        rw [hGle]
        by_cases hd : isWsChar d
        · rw [show splitWs (c :: d :: ds) = splitWs (d :: ds) from by
            rw [splitWs.eq_def]; simp [hc, hd]]
          exact ih
        · rw [show splitWs (c :: d :: ds) = [] :: splitWs (d :: ds) from by
            rw [splitWs.eq_def]; simp [hc, hd]]
          simpa using ih
    · have hcF : isWsChar c = false := by simpa using hc
      have hnl : c ≠ '\n' := by
        intro h0
        rw [h0] at hcF
        exact absurd hcF (by decide)
      obtain ⟨t, ts, hts, hFeq⟩ := splitWs_cons_nonws c cs hcF
      obtain ⟨l, ls, hsp, hGeq⟩ := splitNl_cons_of_ne c cs hnl
      rw [hGeq, hFeq]
      have hPgc : (decide (∃ x ∈ c :: l, isWsChar x = false)) = true := by
        rw [decide_eq_true_eq]
        exact ⟨c, List.mem_cons_self c l, hcF⟩
      have ih2 := ih
      rw [hsp, hts] at ih2
      simp only [List.filter_cons] at ih2 ⊢
      rw [hPgc]
      rw [show (decide ((c :: t).length > 0)) = true from by
        rw [decide_eq_true_eq]; simp]
      simp only [if_true, List.length_cons]
      by_cases hPt : t = []
      · subst hPt
        rw [show (decide (([] : List Char).length > 0)) = false from by simp] at ih2
        simp only [Bool.false_eq_true, if_false] at ih2
        by_cases hPl : (decide (∃ x ∈ l, isWsChar x = false)) = true
        · rw [hPl] at ih2
          simp only [if_true, List.length_cons] at ih2
          omega
        · rw [Bool.not_eq_true] at hPl
          rw [hPl] at ih2
          simp only [Bool.false_eq_true, if_false] at ih2
          omega
      · have hl : ∃ x ∈ l, isWsChar x = false := by
          obtain ⟨e, es, hcs, hew⟩ := splitWs_head_nonws cs t ts hts hPt
          have henl : e ≠ '\n' := by
            intro h0
            rw [h0] at hew
            exact absurd hew (by decide)
          obtain ⟨l2, ls2, hsp2, hGeq2⟩ := splitNl_cons_of_ne e es henl
          rw [hcs, hGeq2] at hsp
          injection hsp with h1 h2
          refine ⟨e, ?_, hew⟩
          rw [← h1]
          exact List.mem_cons_self e l2
        rw [show (decide (∃ x ∈ l, isWsChar x = false)) = true from by
          rw [decide_eq_true_eq]; exact hl] at ih2
        rw [show (decide (t.length > 0)) = true from by
          rw [decide_eq_true_eq]; exact List.length_pos.mpr hPt] at ih2
        simp only [if_true, List.length_cons] at ih2
        omega

/-- C10: in every branch of the density analyzer the block count is at
most the word count, and it is zero exactly when the word count is zero
(each word contributes at most one grid cell; in the fallback the block
count `max(floor(lines/2), 1)` never exceeds the token count). -/
theorem textBlockCount_le_wordsDetected (ocr : OCRResult) (w h : ℚ) :
    (analyzeTextDensity ocr w h).textBlockCount ≤ (analyzeTextDensity ocr w h).wordsDetected ∧
      ((analyzeTextDensity ocr w h).textBlockCount = 0 ↔
        (analyzeTextDensity ocr w h).wordsDetected = 0) := by
  by_cases hw : ocr.words = []
  · by_cases ht : (jsTrim ocr.text.data).length > 0
    · rw [analyzeTextDensity, if_neg (by simp [hw]), if_pos ht]
      have hbc : (analyzeFromPlainText ocr (w * h)).textBlockCount =
          max (((splitNl (jsTrim ocr.text.data)).filter
            (fun line => (jsTrim line).length > 0)).length / 2) 1 := rfl
      have hwd : (analyzeFromPlainText ocr (w * h)).wordsDetected =
          ((splitWs (jsTrim ocr.text.data)).filter (fun w => w.length > 0)).length := rfl
      rw [hbc, hwd]
      have hne : jsTrim ocr.text.data ≠ [] := by
        intro h0
        rw [h0] at ht
        simp at ht
      have htok : 1 ≤ ((splitWs (jsTrim ocr.text.data)).filter
          (fun w => w.length > 0)).length :=
        tokens_pos _ (jsTrim_exists_nonws _ hne)
      have hcong : (splitNl (jsTrim ocr.text.data)).filter
          (fun line => (jsTrim line).length > 0) =
          (splitNl (jsTrim ocr.text.data)).filter
            (fun line => decide (∃ x ∈ line, isWsChar x = false)) :=
        List.filter_congr (fun line _ => decide_eq_decide.mpr (jsTrim_pos_iff line))
      have hlines : ((splitNl (jsTrim ocr.text.data)).filter
          (fun line => (jsTrim line).length > 0)).length ≤
          ((splitWs (jsTrim ocr.text.data)).filter (fun w => w.length > 0)).length := by
        rw [hcong]
        exact lines_le_tokens _
      refine ⟨max_le (le_trans (Nat.div_le_self _ 2) hlines) htok,
        iff_of_false (by omega) (by omega)⟩
    · rw [analyzeTextDensity, if_neg (by simp [hw]), if_neg ht]
      simp
  · have hbc := blockCount_keys ocr w h hw
    have hwd : (analyzeTextDensity ocr w h).wordsDetected = ocr.words.length := by
      rw [analyzeTextDensity, if_pos (List.length_pos.mpr hw)]
      rfl
    rw [hbc, hwd]
    have hlen : ((ocr.words.map (fun word =>
        toString (⌊((word.bbox.x0 + word.bbox.x1) / 2) / ((1000 : ℚ) / 5)⌋ : ℤ) ++ "," ++
          toString (⌊((word.bbox.y0 + word.bbox.y1) / 2) / ((1000 : ℚ) / 5)⌋ : ℤ))).dedup).length ≤
        (ocr.words.map (fun word =>
          toString (⌊((word.bbox.x0 + word.bbox.x1) / 2) / ((1000 : ℚ) / 5)⌋ : ℤ) ++ "," ++
            toString (⌊((word.bbox.y0 + word.bbox.y1) / 2) / ((1000 : ℚ) / 5)⌋ : ℤ))).length :=
      (List.dedup_sublist _).length_le
    rw [List.length_map] at hlen
    refine ⟨hlen, iff_of_false ?_ ?_⟩
    · intro h0
      have h1 := List.length_eq_zero.mp h0
      rw [List.dedup_eq_nil, List.map_eq_nil_iff] at h1
      exact hw h1
    · intro h0
      exact hw (List.length_eq_zero.mp h0)

theorem levRec_nil_left (ys : List Char) : levRec [] ys = ys.length := by
  rw [levRec.eq_def]

theorem levRec_nil_right (xs : List Char) : levRec xs [] = xs.length := by
  rw [levRec.eq_def]
  cases xs <;> rfl

theorem levRec_cons_cons (x y : Char) (xt yt : List Char) :
    levRec (x :: xt) (y :: yt) = if x = y then levRec xt yt
      else min (levRec xt yt + 1)
        (min (levRec (x :: xt) yt + 1) (levRec xt (y :: yt) + 1)) := by
  rw [levRec.eq_def]

theorem levRec_symm (xs : List Char) : ∀ ys, levRec xs ys = levRec ys xs := by
  induction xs with
  | nil =>
    intro ys
    rw [levRec_nil_left, levRec_nil_right]
  | cons x xt ihx =>
    intro ys
    induction ys with
    | nil => rw [levRec_nil_left, levRec_nil_right]
    | cons y yt ihy =>
      rw [levRec_cons_cons, levRec_cons_cons, ihx yt, ihy, ihx (y :: yt)]
      by_cases h : x = y
      · simp [h]
      · rw [if_neg h, if_neg (fun hh => h hh.symm)]
        omega

theorem levRec_self (xs : List Char) : levRec xs xs = 0 := by
  induction xs with
  | nil => rw [levRec_nil_left]; rfl
  | cons x xt ih => rw [levRec_cons_cons, if_pos rfl, ih]

set_option maxHeartbeats 1600000 in
theorem levRec_append (x y : Char) : ∀ (xs ys : List Char),
    levRec (xs ++ [x]) (ys ++ [y]) = if x = y then levRec xs ys
      else min (levRec xs ys + 1)
        (min (levRec (xs ++ [x]) ys + 1) (levRec xs (ys ++ [y]) + 1)) := by
  have main : ∀ (n : ℕ) (xs ys : List Char), xs.length + ys.length ≤ n →
      levRec (xs ++ [x]) (ys ++ [y]) = if x = y then levRec xs ys
        else min (levRec xs ys + 1)
          (min (levRec (xs ++ [x]) ys + 1) (levRec xs (ys ++ [y]) + 1)) := by
    intro n
    induction n with
    | zero =>
      intro xs ys hlen
      have hx : xs = [] := List.length_eq_zero.mp (by omega)
      have hy : ys = [] := List.length_eq_zero.mp (by omega)
      subst hx
      subst hy
      simp only [List.nil_append]
      rw [levRec_cons_cons]
    | succ n ihn =>
      intro xs ys hlen
      cases xs with
      | nil =>
        cases ys with
        | nil =>
          simp only [List.nil_append]
          rw [levRec_cons_cons]
        | cons b ys' =>
          have hQ := ihn [] ys' (by
            simp only [List.length_nil, List.length_cons] at hlen ⊢
            omega)
          simp only [List.nil_append] at hQ ⊢
          simp only [List.cons_append]
          rw [levRec_cons_cons x b ([] : List Char) (ys' ++ [y])]
          rw [hQ]
          rw [levRec_cons_cons x b ([] : List Char) ys']
          simp only [levRec_nil_left, List.length_append, List.length_cons,
            List.length_nil]
          split_ifs <;> omega
      | cons a xs' =>
        cases ys with
        | nil =>
          have hQ := ihn xs' [] (by
            simp only [List.length_nil, List.length_cons] at hlen ⊢
            omega)
          simp only [List.nil_append] at hQ ⊢
          simp only [List.cons_append]
          rw [levRec_cons_cons a y (xs' ++ [x]) ([] : List Char)]
          rw [hQ]
          rw [levRec_cons_cons a y xs' ([] : List Char)]
          simp only [levRec_nil_right, List.length_append, List.length_cons,
            List.length_nil]
          split_ifs <;> omega
        | cons b ys' =>
          have hA := ihn xs' ys' (by
            simp only [List.length_cons] at hlen
            omega)
          have hB := ihn (a :: xs') ys' (by
            simp only [List.length_cons] at hlen ⊢
            omega)
          have hC := ihn xs' (b :: ys') (by
            simp only [List.length_cons] at hlen ⊢
            omega)
          simp only [List.cons_append] at hB hC ⊢
          rw [levRec_cons_cons a b (xs' ++ [x]) (ys' ++ [y])]
          rw [hA, hB, hC]
          rw [levRec_cons_cons a b xs' ys']
          rw [levRec_cons_cons a b (xs' ++ [x]) ys']
          rw [levRec_cons_cons a b xs' (ys' ++ [y])]
          generalize levRec xs' ys' = dA
          generalize levRec (xs' ++ [x]) ys' = dB
          generalize levRec xs' (ys' ++ [y]) = dC
          generalize levRec (a :: xs') ys' = dD
          generalize levRec (a :: (xs' ++ [x])) ys' = dE
          generalize levRec (a :: xs') (ys' ++ [y]) = dF
          generalize levRec xs' (b :: ys') = dG
          generalize levRec (xs' ++ [x]) (b :: ys') = dH
          generalize levRec xs' (b :: (ys' ++ [y])) = dI
          split_ifs
          case _ => rfl
          case _ => rfl
          all_goals
            apply le_antisymm <;> simp only [le_min_iff, min_le_iff] <;> omega
  intro xs ys
  exact main (xs.length + ys.length) xs ys le_rfl

theorem levRec_reverse : ∀ (xs ys : List Char),
    levRec xs.reverse ys.reverse = levRec xs ys := by
  have main : ∀ (n : ℕ) (xs ys : List Char), xs.length + ys.length ≤ n →
      levRec xs.reverse ys.reverse = levRec xs ys := by
    intro n
    induction n with
    | zero =>
      intro xs ys hlen
      have hx : xs = [] := List.length_eq_zero.mp (by omega)
      have hy : ys = [] := List.length_eq_zero.mp (by omega)
      subst hx
      subst hy
      rfl
    | succ n ihn =>
      intro xs ys hlen
      cases xs with
      | nil =>
        simp only [List.reverse_nil, levRec_nil_left, List.length_reverse]
      | cons x xt =>
        cases ys with
        | nil =>
          simp only [List.reverse_nil, levRec_nil_right, List.length_reverse]
        | cons y yt =>
          rw [List.reverse_cons, List.reverse_cons, levRec_append]
          rw [← List.reverse_cons x xt, ← List.reverse_cons y yt]
          rw [ihn xt yt (by simp only [List.length_cons] at hlen; omega)]
          rw [ihn (x :: xt) yt (by simp only [List.length_cons] at hlen ⊢; omega)]
          rw [ihn xt (y :: yt) (by simp only [List.length_cons] at hlen ⊢; omega)]
          rw [levRec_cons_cons]
  intro xs ys
  exact main (xs.length + ys.length) xs ys (le_refl _)

theorem rowOf_head (X acc : List Char) (rest : List Char) :
    rowOf X acc rest = levRec X acc :: (rowOf X acc rest).tail := by
  cases rest <;> rfl

theorem levGo_spec (c : Char) (X : List Char) : ∀ (rest acc : List Char),
    levGo c rest (rowOf X acc rest) (levRec (c :: X) acc) =
      (rowOf (c :: X) acc rest).tail := by
  intro rest
  induction rest with
  | nil => intro acc; rfl
  | cons a as ih =>
    intro acc
    have hq : (rowOf X (a :: acc) as).headD 0 = levRec X (a :: acc) := by
      cases as <;> rfl
    show (let diagCost := (rowOf X acc (a :: as)).headD 0
          let rest' := (rowOf X acc (a :: as)).tail
          let topCost := rest'.headD 0
          let cur := if a = c then diagCost
            else min (diagCost + 1) (min (levRec (c :: X) acc + 1) (topCost + 1))
          cur :: levGo c as rest' cur) = (rowOf (c :: X) acc (a :: as)).tail
    rw [show rowOf X acc (a :: as) = levRec X acc :: rowOf X (a :: acc) as from rfl]
    simp only [List.headD_cons, List.tail_cons, hq]
    have hcur : (if a = c then levRec X acc
        else min (levRec X acc + 1)
          (min (levRec (c :: X) acc + 1) (levRec X (a :: acc) + 1))) =
        levRec (c :: X) (a :: acc) := by
      rw [levRec_cons_cons]
      by_cases h : a = c
      · rw [if_pos h, if_pos h.symm]
      · rw [if_neg h, if_neg (fun hh => h hh.symm)]
    rw [hcur, ih (a :: acc)]
    rw [show rowOf (c :: X) acc (a :: as) =
      levRec (c :: X) acc :: rowOf (c :: X) (a :: acc) as from rfl]
    rw [List.tail_cons]
    exact (rowOf_head (c :: X) (a :: acc) as).symm

theorem levLoop_spec (s1 : List Char) : ∀ (rest X : List Char),
    levLoop s1 rest (rowOf X [] s1) X.length = rowOf (rest.reverse ++ X) [] s1 := by
  intro rest
  induction rest with
  | nil => intro X; rfl
  | cons c cs ih =>
    intro X
    show levLoop s1 cs ((X.length + 1) :: levGo c s1 (rowOf X [] s1) (X.length + 1))
      (X.length + 1) = rowOf ((c :: cs).reverse ++ X) [] s1
    have hleft : X.length + 1 = levRec (c :: X) [] := by
      rw [levRec_nil_right, List.length_cons]
    rw [hleft, levGo_spec c X s1 []]
    rw [show levRec (c :: X) [] :: (rowOf (c :: X) [] s1).tail = rowOf (c :: X) [] s1 from
      (rowOf_head (c :: X) [] s1).symm]
    rw [show levRec (c :: X) [] = (c :: X).length from levRec_nil_right (c :: X)]
    rw [ih (c :: X)]
    rw [show (c :: cs).reverse ++ X = cs.reverse ++ (c :: X) from by
      rw [List.reverse_cons, List.append_assoc]
      rfl]

theorem rowOf_nil_eq_range : ∀ (rest acc : List Char),
    rowOf ([] : List Char) acc rest = List.range' acc.length (rest.length + 1) := by
  intro rest
  induction rest with
  | nil =>
    intro acc
    rw [show rowOf ([] : List Char) acc [] = [levRec [] acc] from rfl]
    rw [levRec_nil_left]
    rfl
  | cons a as ih =>
    intro acc
    rw [show rowOf ([] : List Char) acc (a :: as) =
      levRec [] acc :: rowOf [] (a :: acc) as from rfl]
    rw [levRec_nil_left, ih (a :: acc)]
    rw [show (a :: acc).length = acc.length + 1 from rfl]
    rfl

theorem rowOf_getD : ∀ (rest acc X : List Char),
    (rowOf X acc rest).getD rest.length 0 = levRec X (rest.reverse ++ acc) := by
  intro rest
  induction rest with
  | nil => intro acc X; rfl
  | cons a as ih =>
    intro acc X
    rw [show rowOf X acc (a :: as) = levRec X acc :: rowOf X (a :: acc) as from rfl]
    rw [show (a :: as).length = as.length + 1 from rfl]
    rw [show (levRec X acc :: rowOf X (a :: acc) as).getD (as.length + 1) 0 =
      (rowOf X (a :: acc) as).getD as.length 0 from rfl]
    rw [ih (a :: acc) X]
    rw [show (a :: as).reverse ++ acc = as.reverse ++ (a :: acc) from by
      rw [List.reverse_cons, List.append_assoc]
      rfl]

theorem levenshteinDistance_eq (s1 s2 : List Char) :
    levenshteinDistance s1 s2 = levRec s1 s2 := by
  unfold levenshteinDistance
  have h0 : List.range (s1.length + 1) = rowOf [] [] s1 := by
    rw [rowOf_nil_eq_range s1 []]
    rw [List.range_eq_range']
    rfl
  rw [h0]
  have hloop := levLoop_spec s1 s2 []
  simp only [List.length_nil] at hloop
  rw [hloop]
  rw [rowOf_getD s1 [] (s2.reverse ++ [])]
  simp only [List.append_nil]
  rw [levRec_reverse s2 s1]
  exact levRec_symm s2 s1

theorem similarity_formula (a b : String) (hmax : 0 < max a.length b.length) :
    similarity a b = 1 -
      (levRec (jsToLower a.data) (jsToLower b.data) : ℚ) /
        ((max a.length b.length : ℕ) : ℚ) := by
  by_cases hgt : a.length > b.length
  · have hmaxeq : max a.length b.length = a.length := max_eq_left (le_of_lt hgt)
    rw [hmaxeq] at hmax ⊢
    have hne : ((a.length : ℚ)) ≠ 0 := by
      have : (0 : ℚ) < (a.length : ℚ) := by exact_mod_cast hmax
      exact ne_of_gt this
    simp only [similarity, if_pos hgt]
    rw [if_neg (by omega)]
    rw [levenshteinDistance_eq, sub_div, div_self hne]
  · have hle : a.length ≤ b.length := le_of_not_lt hgt
    have hmaxeq : max a.length b.length = b.length := max_eq_right hle
    rw [hmaxeq] at hmax ⊢
    have hne : ((b.length : ℚ)) ≠ 0 := by
      have : (0 : ℚ) < (b.length : ℚ) := by exact_mod_cast hmax
      exact ne_of_gt this
    simp only [similarity, if_neg hgt]
    rw [if_neg (by omega)]
    rw [levenshteinDistance_eq, levRec_symm, sub_div, div_self hne]

/-- C8: for all strings `a`, `b` with at least one character between them,
`similarity a b` equals `1 - d / max (len a) (len b)` where `d` is the
classic single-character insert/delete/substitute Levenshtein distance
(`levRec`, the textbook recurrence) taken case-insensitively on the
lowercased characters; the empty/empty pair has similarity 1, and every
string is similar to itself with value 1. The source's matrix
implementation `levenshteinDistance` is proved equal to `levRec`
(`levenshteinDistance_eq`). -/
theorem similarity_levenshtein_spec :
    (∀ a b : String, 0 < max a.length b.length →
      similarity a b = 1 -
        (levRec (jsToLower a.data) (jsToLower b.data) : ℚ) /
          ((max a.length b.length : ℕ) : ℚ)) ∧
    similarity "" "" = 1 ∧ ∀ s : String, similarity s s = 1 := by
  refine ⟨fun a b h => similarity_formula a b h, rfl, fun s => ?_⟩
  by_cases h0 : s.length = 0
  · simp only [similarity, gt_iff_lt, lt_self_iff_false, if_false]
    rw [if_pos h0]
  · have h := similarity_formula s s (by simp only [max_self]; omega)
    rw [h, max_self, levRec_self, Nat.cast_zero, zero_div, sub_zero]

theorem similarity_levenshtein_spec_witness :
    0 < max "abc".length "ab".length ∧
      similarity "abc" "ab" = 1 -
        (levRec (jsToLower "abc".data) (jsToLower "ab".data) : ℚ) /
          ((max "abc".length "ab".length : ℕ) : ℚ) :=
  ⟨by decide, similarity_levenshtein_spec.1 "abc" "ab" (by decide)⟩
